import Mathlib

/-!
# datawriter: a shallow embedding of `datawriter.go`

`Writer.Write` formats a record (a list of dynamically typed Go values) into
delimited, quoted, escaped text for MySQL `LOAD DATA INFILE`.

Conventions of the embedding:

* a byte is a `Nat` (every byte the code produces is below 256), a Go `string`
  and a `[]byte` are `List Nat`;
* a `rune` is an `Int` (Go: `int32`); conversion to `uint32` is `% 2^32`;
* the `*bufio.Writer` held by the writer is threaded through explicitly as a
  `Sink`; the three configuration fields form the `Writer` structure;
* Go integers are `Int`/`Nat` payloads, `int` and `uint` are taken as 64 bit wide;
* a failed type assertion (`field.(string)` on a value whose dynamic type is not
  exactly `string`) is the outcome `panic`.
-/

namespace DataWriter

/-! ## The buffered sink (`bufio.Writer`) -/

/-- The `*bufio.Writer` the writer owns, seen through the bytes it has accepted.
`room = none` is a sink that never fails; `room = some k` is a sink that accepts
`k` more bytes and then fails. As in `bufio`, an error is sticky: once `failed`,
every later write is rejected. `calls` counts the write calls issued. -/
structure Sink where
  out : List Nat
  room : Option Nat
  failed : Bool
  calls : Nat
  deriving DecidableEq, Repr

/-- An empty sink with the given room. -/
def Sink.fresh (room : Option Nat) : Sink :=
  { out := [], room := room, failed := false, calls := 0 }

/-- A sink on which no write can fail. -/
def Sink.nonFailing (s : Sink) : Prop := s.room = none ∧ s.failed = false

instance (s : Sink) : Decidable s.nonFailing := by
  unfold Sink.nonFailing; exact inferInstance

/-- Model of `bufio.Writer.WriteString`: the bytes that fit are accepted, the
second component is `true` when the call returns an error. -/
def Sink.WriteString (s : Sink) (bs : List Nat) : Sink × Bool :=
  if s.failed then ({ s with calls := s.calls + 1 }, true)
  else
    match s.room with
    | none => ({ s with out := s.out ++ bs, calls := s.calls + 1 }, false)
    | some k =>
      if bs.length ≤ k then
        ({ s with out := s.out ++ bs, room := some (k - bs.length), calls := s.calls + 1 }, false)
      else
        ({ s with out := s.out ++ bs.take k, room := some 0, failed := true,
                  calls := s.calls + 1 }, true)

/-- Model of `bufio.Writer.WriteByte`. -/
def Sink.WriteByte (s : Sink) (b : Nat) : Sink × Bool :=
  if s.failed then ({ s with calls := s.calls + 1 }, true)
  else
    match s.room with
    | none => ({ s with out := s.out ++ [b], calls := s.calls + 1 }, false)
    | some k =>
      if 1 ≤ k then
        ({ s with out := s.out ++ [b], room := some (k - 1), calls := s.calls + 1 }, false)
      else
        ({ s with failed := true, calls := s.calls + 1 }, true)

/-- Model of `utf8.EncodeRune`: the UTF-8 bytes of a rune; a rune that is negative,
above U+10FFFF or a surrogate is encoded as U+FFFD. -/
def encodeRune (r : Int) : List Nat :=
  let i := (r % 4294967296).toNat
  if i ≤ 0x7F then [i]
  else if i ≤ 0x7FF then [0xC0 + i / 64, 0x80 + i % 64]
  else if i > 0x10FFFF ∨ (0xD800 ≤ i ∧ i ≤ 0xDFFF) then [0xEF, 0xBF, 0xBD]
  else if i ≤ 0xFFFF then [0xE0 + i / 4096, 0x80 + (i / 64) % 64, 0x80 + i % 64]
  else [0xF0 + i / 262144, 0x80 + (i / 4096) % 64, 0x80 + (i / 64) % 64, 0x80 + i % 64]

/-- Model of `bufio.Writer.WriteRune`: a rune below `utf8.RuneSelf` (compared as `uint32`)
is passed to `WriteByte`; any other rune needs `utf8.UTFMax` = 4 free bytes, with fewer the
buffer is flushed first, which fails on a sink with limited room. The rune is written whole
or not at all. -/
def Sink.WriteRune (s : Sink) (r : Int) : Sink × Bool :=
  if (r % 4294967296).toNat < 0x80 then s.WriteByte (r % 4294967296).toNat
  else if s.failed then ({ s with calls := s.calls + 1 }, true)
  else
    match s.room with
    | none => ({ s with out := s.out ++ encodeRune r, calls := s.calls + 1 }, false)
    | some k =>
      if 4 ≤ k then
        ({ s with out := s.out ++ encodeRune r, room := some (k - (encodeRune r).length),
                  calls := s.calls + 1 }, false)
      else
        ({ s with failed := true, calls := s.calls + 1 }, true)

/-- Model of `bufio.Writer.Flush`: reports the sticky error. -/
def Sink.Flush (s : Sink) : Sink × Bool := (s, s.failed)

/-! ## `strconv` -/

/-- The digit loop of `strconv.formatBits` in base 10: digits are produced from the least
significant one and placed in front of `acc`. `fuel` is the size of the digit buffer. -/
def formatBits : Nat → Nat → List Nat → List Nat
  | 0, _, acc => acc
  | fuel + 1, u, acc =>
    if u < 10 then (48 + u) :: acc
    else formatBits fuel (u / 10) ((48 + u % 10) :: acc)

/-- Model of `strconv.FormatUint(u, 10)`; the argument is a `uint64`. -/
def FormatUint (u : Nat) : List Nat :=
  formatBits 20 (u % 18446744073709551616) []

/-- Model of `strconv.FormatInt(i, 10)`; the argument is an `int64`: the magnitude is
computed in `uint64` as `-uint64(i)`. -/
def FormatInt (i : Int) : List Nat :=
  let u := (i % 18446744073709551616).toNat
  if i < 0 then 45 :: formatBits 20 ((18446744073709551616 - u) % 18446744073709551616) []
  else formatBits 20 u []

/-- Model of `strconv.Itoa(i)`, which is `FormatInt(int64(i), 10)`. -/
def Itoa (i : Int) : List Nat := FormatInt i

/-- Bit pattern of `float64(x)` for the `float32` with bit pattern `bits`: the conversion
is exact on every number and on the infinities, and a NaN becomes a quiet NaN with the
same payload. -/
def float32to64 (bits : Nat) : Nat :=
  let sign := (bits / 2147483648) % 2
  let e := (bits / 8388608) % 256
  let f := bits % 8388608
  let hi := sign * 9223372036854775808
  if e = 255 then
    if f = 0 then hi + 2047 * 4503599627370496
    else hi + 2047 * 4503599627370496 + 2251799813685248 +
      (f * 536870912) % 2251799813685248
  else if e = 0 then
    if f = 0 then hi
    else
      let k := Nat.log2 f
      hi + (k + 874) * 4503599627370496 + (f - 2 ^ k) * 2 ^ (52 - k)
  else hi + (e + 896) * 4503599627370496 + f * 536870912

/-! ## Dynamically typed field values (`interface{}`) -/

/-- The kinds of `reflect.Kind`. -/
inductive Kind
  | Invalid | Bool | Int | Int8 | Int16 | Int32 | Int64
  | Uint | Uint8 | Uint16 | Uint32 | Uint64 | Uintptr
  | Float32 | Float64 | Complex64 | Complex128
  | Array | Chan | Func | Interface | Map | Ptr | Slice | String | Struct | UnsafePointer
  deriving DecidableEq, Repr

/-- The kinds of values that carry no payload in this model. -/
inductive OtherKind
  | Uintptr | Complex64 | Complex128 | Array | Chan | Func | Interface | Map | Struct
  | UnsafePointer
  deriving DecidableEq, Repr

/-- The `reflect.Kind` of a payload-free value. -/
def OtherKind.toKind : OtherKind → Kind
  | .Uintptr => .Uintptr
  | .Complex64 => .Complex64
  | .Complex128 => .Complex128
  | .Array => .Array
  | .Chan => .Chan
  | .Func => .Func
  | .Interface => .Interface
  | .Map => .Map
  | .Struct => .Struct
  | .UnsafePointer => .UnsafePointer

/-- A `time.Time` by its calendar fields; the zero value is 0001-01-01 00:00:00. -/
structure Time where
  year : Nat
  month : Nat
  day : Nat
  hour : Nat
  minute : Nat
  second : Nat
  deriving DecidableEq, Repr

/-- The zero value `time.Time{}`. -/
def Time.zero : Time := { year := 1, month := 1, day := 1, hour := 0, minute := 0, second := 0 }

/-- A non-nil `interface{}` value: a dynamic type together with its value.
`bytes` is the type `[]byte` itself; `slice e` is any other slice type, of element kind `e`
(also `[]T` for a defined type `T` of kind `Uint8`); `named v` is a value of a defined type
whose underlying type is the type of `v`; `time` is `time.Time`, a struct;
`nilPtr` is a nil pointer and `ptr v` a pointer to `v`. -/
inductive Value
  | bool (b : Bool)
  | int (v : Int)
  | int8 (v : Int)
  | int16 (v : Int)
  | int32 (v : Int)
  | int64 (v : Int)
  | uint (v : Nat)
  | uint8 (v : Nat)
  | uint16 (v : Nat)
  | uint32 (v : Nat)
  | uint64 (v : Nat)
  | float32 (bits : Nat)
  | float64 (bits : Nat)
  | string (s : List Nat)
  | bytes (b : List Nat)
  | slice (elem : Kind)
  | time (t : Time)
  | other (k : OtherKind)
  | named (underlying : Value)
  | nilPtr
  | ptr (target : Value)
  deriving DecidableEq, Repr

/-- A field passed to `Write`: `none` is the nil interface. -/
abbrev Field := Option Value

/-- Model of `reflect.ValueOf(field).Kind()`. -/
def Value.kind : Value → Kind
  | .bool _ => .Bool
  | .int _ => .Int
  | .int8 _ => .Int8
  | .int16 _ => .Int16
  | .int32 _ => .Int32
  | .int64 _ => .Int64
  | .uint _ => .Uint
  | .uint8 _ => .Uint8
  | .uint16 _ => .Uint16
  | .uint32 _ => .Uint32
  | .uint64 _ => .Uint64
  | .float32 _ => .Float32
  | .float64 _ => .Float64
  | .string _ => .String
  | .bytes _ => .Slice
  | .slice _ => .Slice
  | .time _ => .Struct
  | .other k => k.toKind
  | .named v => v.kind
  | .nilPtr => .Ptr
  | .ptr _ => .Ptr

/-- Model of `v.IsNil()` for a value of kind `Ptr`. -/
def Value.isNil : Value → Bool
  | .nilPtr => true
  | .named v => v.isNil
  | _ => false

/-- Model of `reflect.Indirect(v).Interface()` for a non-nil pointer. -/
def Value.indirect : Value → Value
  | .ptr t => t
  | .named v => v.indirect
  | v => v

/-- Model of `v.Type().Elem().Kind()` for a value of kind `Slice`. -/
def Value.elemKind : Value → Kind
  | .bytes _ => .Uint8
  | .slice e => e
  | .named v => v.elemKind
  | _ => .Invalid

/-! ## The writer -/

/-- The configuration fields of `Writer`; the field `w` is the `Sink` passed separately. -/
structure Writer where
  Delim : Int
  Quote : Int
  LineEnd : List Nat
  deriving DecidableEq, Repr

/-- The configuration set by `NewWriter`: delimiter `,`, quote `"`, line end LF. -/
def NewWriter : Writer := { Delim := 44, Quote := 34, LineEnd := [10] }

/-- The errors `Write` returns, by the place that returns them. -/
inductive WriteError
  | delim
  | openingQuote
  | content
  | unsupported (k : Kind)
  | value
  | closingQuote
  deriving DecidableEq, Repr

/-- How a call of `Write` ends: it returns nil, returns an error, or panics. -/
inductive Outcome
  | ok
  | error (e : WriteError)
  | panic
  deriving DecidableEq, Repr

/-- The function `writeByte`: one byte of string content, escaped. -/
def writeByte (b : Nat) (s : Sink) : Sink × Bool :=
  if b = 0x00 then s.WriteString [0x5C, 0x30]
  else if b = 0x5C then s.WriteString [0x5C, 0x62]
  else if b = 0x0A then s.WriteString [0x5C, 0x6E]
  else if b = 0x0D then s.WriteString [0x5C, 0x72]
  else if b = 0x09 then s.WriteString [0x5C, 0x74]
  else if b = 0x1A then s.WriteString [0x5C, 0x5A]
  else s.WriteByte b

/-- The loop `for i := 0; i < len(s); i++ { err = w.writeByte(s[i]); if err != nil { return } }`;
the second component is `true` when the loop was left by the `return`. -/
def writeContent : List Nat → Sink → Sink × Bool
  | [], s => (s, false)
  | b :: rest, s =>
    match writeByte b s with
    | (s1, true) => (s1, true)
    | (s1, false) => writeContent rest s1

/-- What the type dispatch of one field does: fall through to the check of `err`, or
leave `Write`. -/
inductive Step
  | next (err : Bool)
  | ret (o : Outcome)
  deriving DecidableEq, Repr

/-- A write whose error is kept in `err` for the check after the dispatch. -/
def emit (s : Sink) (text : List Nat) : Sink × Step :=
  ((s.WriteString text).1, .next (s.WriteString text).2)

/-- The type dispatch of `Write` on the kind `k` of the field, the `if k == ...` chain.
`fmtFloat` is `strconv.FormatFloat(x, 'f', -1, 64)` on the bit pattern of `x`. -/
def dispatch (fmtFloat : Nat → List Nat) (field : Value) (k : Kind) (s : Sink) : Sink × Step :=
  if k = .String then
    match field with
    | .string str =>
      match writeContent str s with
      | (s1, true) => (s1, .ret (.error .content))
      | (s1, false) => (s1, .next false)
    | _ => (s, .ret .panic)
  else if k = .Bool then
    match field with
    | .bool b => if b then emit s [0x31] else emit s [0x30]
    | _ => (s, .ret .panic)
  else if k = .Int then
    match field with
    | .int v => emit s (Itoa v)
    | _ => (s, .ret .panic)
  else if k = .Int8 then
    match field with
    | .int8 v => emit s (Itoa v)
    | _ => (s, .ret .panic)
  else if k = .Int16 then
    match field with
    | .int16 v => emit s (Itoa v)
    | _ => (s, .ret .panic)
  else if k = .Int32 then
    match field with
    | .int32 v => emit s (Itoa v)
    | _ => (s, .ret .panic)
  else if k = .Int64 then
    match field with
    | .int64 v => emit s (FormatInt v)
    | _ => (s, .ret .panic)
  else if k = .Uint then
    match field with
    | .uint v => emit s (FormatUint v)
    | _ => (s, .ret .panic)
  else if k = .Uint8 then
    match field with
    | .uint8 v => emit s (FormatUint v)
    | _ => (s, .ret .panic)
  else if k = .Uint16 then
    match field with
    | .uint16 v => emit s (FormatUint v)
    | _ => (s, .ret .panic)
  else if k = .Uint32 then
    match field with
    | .uint32 v => emit s (FormatUint v)
    | _ => (s, .ret .panic)
  else if k = .Uint64 then
    match field with
    | .uint64 v => emit s (FormatUint v)
    | _ => (s, .ret .panic)
  else if k = .Float32 then
    match field with
    | .float32 bits => emit s (fmtFloat (float32to64 bits))
    | _ => (s, .ret .panic)
  else if k = .Float64 then
    match field with
    | .float64 bits => emit s (fmtFloat bits)
    | _ => (s, .ret .panic)
  else if k = .Slice ∧ field.elemKind = .Uint8 then
    match field with
    | .bytes bs =>
      match writeContent bs s with
      | (s1, true) => (s1, .ret (.error .content))
      | (s1, false) => (s1, .next false)
    | _ => (s, .ret .panic)
  else (s, .ret (.error (.unsupported k)))

/-- The part of the loop body of `Write` for a field that is not nil: the opening quote, the
type dispatch on the kind of `field`, the check of `err` and the closing quote.
`none` means the loop goes on with the next field, `some o` that `Write` ends with `o`. -/
def writeQuoted (fmtFloat : Nat → List Nat) (w : Writer) (field : Value) (s : Sink) :
    Sink × Option Outcome :=
  match s.WriteRune w.Quote with
  | (s1, true) => (s1, some (.error .openingQuote))
  | (s1, false) =>
    match dispatch fmtFloat field field.kind s1 with
    | (s2, .ret o) => (s2, some o)
    | (s2, .next true) => (s2, some (.error .value))
    | (s2, .next false) =>
      match s2.WriteRune w.Quote with
      | (s3, true) => (s3, some (.error .closingQuote))
      | (s3, false) => (s3, none)

/-- The body of the loop of `Write` after the delimiter: the null marker for nil and for a
nil pointer, otherwise the quoted value, a pointer being dereferenced first. -/
def writeField (fmtFloat : Nat → List Nat) (w : Writer) (field : Field) (s : Sink) :
    Sink × Option Outcome :=
  match field with
  | none => ((s.WriteString [0x5C, 0x4E]).1, none)
  | some v =>
    if v.kind = .Ptr ∧ v.isNil = true then ((s.WriteString [0x5C, 0x4E]).1, none)
    else writeQuoted fmtFloat w (if v.kind = .Ptr then v.indirect else v) s

/-- The loop `for n, field := range fields` of `Write`, from index `n` on, followed by
the write of the line end. -/
def writeFields (fmtFloat : Nat → List Nat) (w : Writer) : Nat → List Field → Sink → Sink × Outcome
  | _, [], s => ((s.WriteString w.LineEnd).1, .ok)
  | n, field :: rest, s =>
    match (if n > 0 then s.WriteRune w.Delim else (s, false)) with
    | (s1, true) => (s1, .error .delim)
    | (s1, false) =>
      match writeField fmtFloat w field s1 with
      | (s2, some o) => (s2, o)
      | (s2, none) => writeFields fmtFloat w (n + 1) rest s2

/-- The method `Writer.Write`. -/
def Write (fmtFloat : Nat → List Nat) (w : Writer) (fields : List Field) (s : Sink) :
    Sink × Outcome :=
  writeFields fmtFloat w 0 fields s

/-! ## The test suite (`datawriter_test.go`) -/

/-- The sink of the helper `create` of the tests: an empty buffer, which never fails. -/
def create : Sink := Sink.fresh none

/-- The fields written by `TestWriterString`:
`"hallo"`, `"\""` and `"\\\n\r\t\x08\x1A"`. -/
def TestWriterString_fields : List Field :=
  [some (.string [0x68, 0x61, 0x6C, 0x6C, 0x6F]), some (.string [0x22]),
    some (.string [0x5C, 0x0A, 0x0D, 0x09, 0x08, 0x1A])]

/-- The output `TestWriterString` requires: the quote escaped as backslash and quote, the
backslash as two backslashes, the byte 0x08 as backslash and `b`. -/
def TestWriterString_expected : List Nat :=
  [0x22, 0x68, 0x61, 0x6C, 0x6C, 0x6F, 0x22, 0x2C,
    0x22, 0x5C, 0x22, 0x22, 0x2C,
    0x22, 0x5C, 0x5C, 0x5C, 0x6E, 0x5C, 0x72, 0x5C, 0x74, 0x5C, 0x62, 0x5C, 0x5A, 0x22, 0x0A]

/-- The field written by `TestWriteByteArray`: the 32 bytes 0x00 to 0x1F as a `[]byte`. -/
def TestWriteByteArray_fields : List Field := [some (.bytes (List.range 32))]

/-- The output `TestWriteByteArray` requires: the byte 0x08 written as backslash and `b`. -/
def TestWriteByteArray_expected : List Nat :=
  [0x22, 0x5C, 0x30, 0x01, 0x02, 0x03, 0x04, 0x05, 0x06, 0x07, 0x5C, 0x62, 0x5C, 0x74,
    0x5C, 0x6E, 0x0B, 0x0C, 0x5C, 0x72, 0x0E, 0x0F, 0x10, 0x11, 0x12, 0x13, 0x14, 0x15,
    0x16, 0x17, 0x18, 0x19, 0x5C, 0x5A, 0x1B, 0x1C, 0x1D, 0x1E, 0x1F, 0x22, 0x0A]

/-- The fields written by `TestWriteTime`: 2018-05-30 12:01:02 UTC and the zero time. -/
def TestWriteTime_fields : List Field :=
  [some (.time { year := 2018, month := 5, day := 30, hour := 12, minute := 1, second := 2 }),
    some (.time Time.zero)]

/-- The output `TestWriteTime` requires:
`"2018-05-30 12:01:02","0000-00-00 00:00:00"` and a line feed. -/
def TestWriteTime_expected : List Nat :=
  [0x22, 0x32, 0x30, 0x31, 0x38, 0x2D, 0x30, 0x35, 0x2D, 0x33, 0x30, 0x20,
    0x31, 0x32, 0x3A, 0x30, 0x31, 0x3A, 0x30, 0x32, 0x22, 0x2C,
    0x22, 0x30, 0x30, 0x30, 0x30, 0x2D, 0x30, 0x30, 0x2D, 0x30, 0x30, 0x20,
    0x30, 0x30, 0x3A, 0x30, 0x30, 0x3A, 0x30, 0x30, 0x22, 0x0A]

/-- The fields written by `TestWriterBool`: `true` and `false`. -/
def TestWriterBool_fields : List Field := [some (.bool true), some (.bool false)]

/-- The output `TestWriterBool` requires: `"1","0"` and a line feed. -/
def TestWriterBool_expected : List Nat := [0x22, 0x31, 0x22, 0x2C, 0x22, 0x30, 0x22, 0x0A]

/-- The values of `strconv.FormatFloat(x, 'f', -1, 64)` at four `float64` bit patterns:
1 gives `1`, 2.5 gives `2.5`, the `float64` nearest to 0.1 gives `0.1`, and the `float64`
that `float32(0.1)` converts to gives `0.10000000149011612`. Elsewhere the table is empty. -/
def formatFloatTable (bits : Nat) : List Nat :=
  if bits = 0x3FF0000000000000 then [0x31]
  else if bits = 0x4004000000000000 then [0x32, 0x2E, 0x35]
  else if bits = 0x3FB999999999999A then [0x30, 0x2E, 0x31]
  else if bits = 0x3FB99999A0000000 then
    [0x30, 0x2E, 0x31, 0x30, 0x30, 0x30, 0x30, 0x30, 0x30, 0x30, 0x31, 0x34, 0x39, 0x30, 0x31,
      0x31, 0x36, 0x31, 0x32]
  else []

/-- The formatter of floating point numbers used where a record holds none. -/
def noFloats : Nat → List Nat := fun _ => []

/-! ## Specification-side definitions -/

/-- The Escape Table of the specification: the replacement of one content byte. -/
def escapeTable (b : Nat) : List Nat :=
  if b = 0x00 then [0x5C, 0x30]
  else if b = 0x5C then [0x5C, 0x62]
  else if b = 0x0A then [0x5C, 0x6E]
  else if b = 0x0D then [0x5C, 0x72]
  else if b = 0x09 then [0x5C, 0x74]
  else if b = 0x1A then [0x5C, 0x5A]
  else [b]

/-- The escaped form of a content: what the `writeByte` loop puts into an empty sink
that never fails. -/
def escape (content : List Nat) : List Nat :=
  (writeContent content (Sink.fresh none)).1.out

/-- The inverse of the Escape Table on the character that follows a backslash. -/
def unescapeChar (c : Nat) : Nat :=
  if c = 0x30 then 0x00
  else if c = 0x62 then 0x5C
  else if c = 0x6E then 0x0A
  else if c = 0x72 then 0x0D
  else if c = 0x74 then 0x09
  else if c = 0x5A then 0x1A
  else c

/-- Unescaping: on a backslash the next character is consumed and mapped back, any other
byte is copied. -/
def unescape : List Nat → List Nat
  | [] => []
  | [b] => [b]
  | b :: c :: rest =>
    if b = 0x5C then unescapeChar c :: unescape rest
    else b :: unescape (c :: rest)

/-- The text of a value of a recognized type, as the Type Conversion Table gives it;
`none` for every other value. -/
def valueText (fmtFloat : Nat → List Nat) : Value → Option (List Nat)
  | .bool b => some (if b then [0x31] else [0x30])
  | .int v => some (Itoa v)
  | .int8 v => some (Itoa v)
  | .int16 v => some (Itoa v)
  | .int32 v => some (Itoa v)
  | .int64 v => some (FormatInt v)
  | .uint v => some (FormatUint v)
  | .uint8 v => some (FormatUint v)
  | .uint16 v => some (FormatUint v)
  | .uint32 v => some (FormatUint v)
  | .uint64 v => some (FormatUint v)
  | .float32 bits => some (fmtFloat (float32to64 bits))
  | .float64 bits => some (fmtFloat bits)
  | .string s => some (s.flatMap escapeTable)
  | .bytes b => some (b.flatMap escapeTable)
  | _ => none

/-- The encoding of one field: the null marker for nil and for a nil pointer, the quoted
text for a value of a recognized type or a pointer to one, `none` otherwise. -/
def fieldText (fmtFloat : Nat → List Nat) (w : Writer) : Field → Option (List Nat)
  | none => some [0x5C, 0x4E]
  | some v =>
    if v.kind = .Ptr then
      if v.isNil = true then some [0x5C, 0x4E]
      else (valueText fmtFloat v.indirect).map
        (fun t => encodeRune w.Quote ++ t ++ encodeRune w.Quote)
    else (valueText fmtFloat v).map (fun t => encodeRune w.Quote ++ t ++ encodeRune w.Quote)

/-- The fields in the record that `Write` encodes: nil, nil pointers, values of the
recognized types and pointers to them. -/
def recognized (fmtFloat : Nat → List Nat) (w : Writer) (f : Field) : Prop :=
  (fieldText fmtFloat w f).isSome = true

instance (fmtFloat : Nat → List Nat) (w : Writer) (f : Field) :
    Decidable (recognized fmtFloat w f) := by
  unfold recognized; exact inferInstance

/-- The fields of a record joined by the delimiter, without the line end. -/
def joinFields (fmtFloat : Nat → List Nat) (w : Writer) (fields : List Field) : List Nat :=
  List.intercalate (encodeRune w.Delim) (fields.map (fun f => (fieldText fmtFloat w f).getD []))

/-- The kinds for which the type dispatch has a branch. -/
def dispatched (v : Value) : Bool :=
  v.kind ∈ [Kind.String, Kind.Bool, Kind.Int, Kind.Int8, Kind.Int16, Kind.Int32, Kind.Int64,
    Kind.Uint, Kind.Uint8, Kind.Uint16, Kind.Uint32, Kind.Uint64, Kind.Float32, Kind.Float64]
  || (v.kind = Kind.Slice && v.elemKind = Kind.Uint8)

/-- The kind of an unsupported field: of a non-nil field whose type, after one pointer
is dereferenced, has no branch in the type dispatch. -/
def unsupportedKind : Field → Option Kind
  | none => none
  | some v =>
    if v.kind = .Ptr then
      if v.isNil = true then none
      else if dispatched v.indirect then none else some v.indirect.kind
    else if dispatched v then none else some v.kind

/-- The number an integer field holds, when it is in the range of its type. -/
def intValue : Value → Option Int
  | .int v => if -9223372036854775808 ≤ v ∧ v ≤ 9223372036854775807 then some v else none
  | .int8 v => if -128 ≤ v ∧ v ≤ 127 then some v else none
  | .int16 v => if -32768 ≤ v ∧ v ≤ 32767 then some v else none
  | .int32 v => if -2147483648 ≤ v ∧ v ≤ 2147483647 then some v else none
  | .int64 v => if -9223372036854775808 ≤ v ∧ v ≤ 9223372036854775807 then some v else none
  | .uint v => if v ≤ 18446744073709551615 then some (v : Int) else none
  | .uint8 v => if v ≤ 255 then some (v : Int) else none
  | .uint16 v => if v ≤ 65535 then some (v : Int) else none
  | .uint32 v => if v ≤ 4294967295 then some (v : Int) else none
  | .uint64 v => if v ≤ 18446744073709551615 then some (v : Int) else none
  | _ => none

/-- A decimal digit character. -/
def isDigit (c : Nat) : Prop := 48 ≤ c ∧ c ≤ 57

instance (c : Nat) : Decidable (isDigit c) := by
  unfold isDigit; exact inferInstance

/-- Reading a run of decimal digits, most significant first, onto `acc`; `none` when a
character is not a digit. -/
def parseDigits : List Nat → Nat → Option Nat
  | [], acc => some acc
  | c :: cs, acc => if isDigit c then parseDigits cs (acc * 10 + (c - 48)) else none

/-- Reading a decimal integer: an optional `-` and at least one digit, nothing else. -/
def parseDecimal (text : List Nat) : Option Int :=
  match text with
  | [] => none
  | c :: cs =>
    if c = 45 then
      if cs = [] then none else (parseDigits cs 0).map (fun n => -(n : Int))
    else (parseDigits (c :: cs) 0).map (fun n => (n : Int))

/-- The minimal decimal form of an integer: digits only, after one `-` when the number is
negative, and no leading zero except for the number 0 itself. -/
def minimalDecimal (val : Int) (text : List Nat) : Prop :=
  ∃ ds : List Nat, text = (if val < 0 then 45 :: ds else ds) ∧ ds ≠ [] ∧
    (∀ c ∈ ds, isDigit c) ∧ (ds.head? = some 48 → ds = [48])

/-- The struct `Writer` as a whole: the configuration fields and the sink behind `w`. -/
structure WriterState where
  cfg : Writer
  sink : Sink
  deriving DecidableEq, Repr

/-- The method `Write` on the whole struct: it has no assignment to `Delim`, `Quote` or
`LineEnd`, only the sink behind `w` moves on. -/
def WriterState.Write (fmtFloat : Nat → List Nat) (st : WriterState) (fields : List Field) :
    WriterState × Outcome :=
  ({ cfg := st.cfg, sink := (DataWriter.Write fmtFloat st.cfg fields st.sink).1 },
    (DataWriter.Write fmtFloat st.cfg fields st.sink).2)

/-- The method `Flush` on the whole struct. -/
def WriterState.Flush (st : WriterState) : WriterState × Bool :=
  ({ cfg := st.cfg, sink := st.sink.Flush.1 }, st.sink.Flush.2)

/-- The bytes of one record: what `Write` puts into an empty sink that never fails. -/
def encode (fmtFloat : Nat → List Nat) (w : Writer) (fields : List Field) : List Nat :=
  (Write fmtFloat w fields (Sink.fresh none)).1.out

/-- A field that is the nil marker or a string without the quote character `"`. -/
def nilOrQuoteFree : Field → Bool
  | none => true
  | some (.string s) => decide (0x22 ∉ s)
  | _ => false

/-- Reading quoted content: the bytes up to the next quote character and the bytes after
that quote; `none` when there is no quote. -/
def takeQuoted : List Nat → Option (List Nat × List Nat)
  | [] => none
  | b :: bs =>
    if b = 0x22 then some ([], bs)
    else (takeQuoted bs).map (fun p => (b :: p.1, p.2))

/-- Reading one field of a line in the default format: the null marker gives nil, a quoted
content gives the unescaped string; the second component is the text that follows. -/
def parseField (text : List Nat) : Option (Field × List Nat) :=
  match text with
  | [] => none
  | [_] => none
  | a :: b :: rest =>
    if a = 0x5C ∧ b = 0x4E then some (none, rest)
    else if a = 0x22 then
      (takeQuoted (b :: rest)).map (fun p => (some (Value.string (unescape p.1)), p.2))
    else none

/-- Reading the fields of a line in the default format, one field per unit of fuel: a field
is followed by a comma and more fields, or by the line feed that ends the line. -/
def parseFields : Nat → List Nat → Option (List Field)
  | 0, _ => none
  | fuel + 1, text =>
    match parseField text with
    | none => none
    | some (f, rest) =>
      if rest = [0x0A] then some [f]
      else
        match rest with
        | [] => none
        | c :: more => if c = 0x2C then (parseFields fuel more).map (fun fs => f :: fs) else none

/-- Reading back a line written with the default configuration. -/
def parseRecord (text : List Nat) : Option (List Field) :=
  if text = [0x0A] then some [] else parseFields text.length text

/-- The values of the types bool, signed and unsigned integer of any width. -/
def boolOrInteger : Value → Bool
  | .bool _ => true
  | .int _ => true
  | .int8 _ => true
  | .int16 _ => true
  | .int32 _ => true
  | .int64 _ => true
  | .uint _ => true
  | .uint8 _ => true
  | .uint16 _ => true
  | .uint32 _ => true
  | .uint64 _ => true
  | _ => false

/-- The values of the types bool, integer of any width, string and `[]byte`. -/
def plainValue : Value → Bool
  | .string _ => true
  | .bytes _ => true
  | v => boolOrInteger v

/-- A field that is nil, a nil pointer, a bool, an integer, a string, a `[]byte`, or a
pointer to one of these. -/
def plainField : Field → Bool
  | none => true
  | some v =>
    if v.kind = .Ptr then v.isNil || plainValue v.indirect
    else plainValue v

/-- The bytes the Escape Table replaces: 0x00, backslash, LF, CR, TAB and 0x1A. -/
def reservedBytes : List Nat := [0x00, 0x5C, 0x0A, 0x0D, 0x09, 0x1A]

/-! # Theorems -/

/-! ## The sink that never fails -/

theorem WriteString_nonFailing (s : Sink) (bs : List Nat) (h : s.nonFailing) :
    (s.WriteString bs).2 = false ∧ (s.WriteString bs).1.nonFailing ∧
      (s.WriteString bs).1.out = s.out ++ bs := by
  obtain ⟨hr, hf⟩ := h
  simp [Sink.WriteString, Sink.nonFailing, hr, hf]

theorem WriteByte_nonFailing (s : Sink) (b : Nat) (h : s.nonFailing) :
    (s.WriteByte b).2 = false ∧ (s.WriteByte b).1.nonFailing ∧
      (s.WriteByte b).1.out = s.out ++ [b] := by
  obtain ⟨hr, hf⟩ := h
  simp [Sink.WriteByte, Sink.nonFailing, hr, hf]

theorem WriteRune_nonFailing (s : Sink) (r : Int) (h : s.nonFailing) :
    (s.WriteRune r).2 = false ∧ (s.WriteRune r).1.nonFailing ∧
      (s.WriteRune r).1.out = s.out ++ encodeRune r := by
  unfold Sink.WriteRune
  by_cases hb : (r % 4294967296).toNat < 0x80
  · have he : encodeRune r = [(r % 4294967296).toNat] := by
      unfold encodeRune
      simp only []
      rw [if_pos (by omega)]
    rw [if_pos hb, he]
    exact WriteByte_nonFailing s _ h
  · obtain ⟨hr, hf⟩ := h
    rw [if_neg hb]
    simp [Sink.nonFailing, hr, hf]

theorem writeByte_nonFailing (b : Nat) (s : Sink) (h : s.nonFailing) :
    (writeByte b s).2 = false ∧ (writeByte b s).1.nonFailing ∧
      (writeByte b s).1.out = s.out ++ escapeTable b := by
  unfold writeByte escapeTable
  split_ifs <;> first
    | exact WriteString_nonFailing s _ h
    | exact WriteByte_nonFailing s _ h

theorem writeContent_nonFailing (bs : List Nat) (s : Sink) (h : s.nonFailing) :
    (writeContent bs s).2 = false ∧ (writeContent bs s).1.nonFailing ∧
      (writeContent bs s).1.out = s.out ++ bs.flatMap escapeTable := by
  induction bs generalizing s with
  | nil => simp [writeContent, h]
  | cons b rest ih =>
    obtain ⟨h1, h2, h3⟩ := writeByte_nonFailing b s h
    obtain ⟨i1, i2, i3⟩ := ih (writeByte b s).1 h2
    have hw : writeByte b s = ((writeByte b s).1, false) := by
      rw [← h1]
    rw [writeContent, hw]
    simp only []
    refine ⟨i1, i2, ?_⟩
    rw [i3, h3]
    simp [List.flatMap_cons, List.append_assoc]

theorem fresh_nonFailing : (Sink.fresh none).nonFailing := ⟨rfl, rfl⟩

theorem escape_eq (bs : List Nat) : escape bs = bs.flatMap escapeTable := by
  have h := (writeContent_nonFailing bs (Sink.fresh none) fresh_nonFailing).2.2
  simpa [escape, Sink.fresh] using h

/-! ## Unescaping -/

theorem unescape_cons_of_ne (b : Nat) (l : List Nat) (hb : b ≠ 0x5C) :
    unescape (b :: l) = b :: unescape l := by
  cases l with
  | nil => simp [unescape]
  | cons c rest => simp [unescape, hb]

theorem unescape_escaped_pair (c : Nat) (l : List Nat) :
    unescape (0x5C :: c :: l) = unescapeChar c :: unescape l := by
  simp [unescape]

theorem unescape_escapeTable_append (b : Nat) (l : List Nat) :
    unescape (escapeTable b ++ l) = b :: unescape l := by
  unfold escapeTable
  split_ifs with h0 h1 h2 h3 h4 h5
  · subst h0; rw [List.cons_append, List.cons_append, List.nil_append, unescape_escaped_pair]; rfl
  · subst h1; rw [List.cons_append, List.cons_append, List.nil_append, unescape_escaped_pair]; rfl
  · subst h2; rw [List.cons_append, List.cons_append, List.nil_append, unescape_escaped_pair]; rfl
  · subst h3; rw [List.cons_append, List.cons_append, List.nil_append, unescape_escaped_pair]; rfl
  · subst h4; rw [List.cons_append, List.cons_append, List.nil_append, unescape_escaped_pair]; rfl
  · subst h5; rw [List.cons_append, List.cons_append, List.nil_append, unescape_escaped_pair]; rfl
  · rw [List.cons_append, List.nil_append, unescape_cons_of_ne b l h1]

theorem unescape_flatMap (bs : List Nat) : unescape (bs.flatMap escapeTable) = bs := by
  induction bs with
  | nil => rfl
  | cons b rest ih => rw [List.flatMap_cons, unescape_escapeTable_append, ih]

/-! ## Decimal digits -/

theorem formatBits_acc (fuel u : Nat) (acc : List Nat) :
    formatBits fuel u acc = formatBits fuel u [] ++ acc := by
  induction fuel generalizing u acc with
  | zero => simp [formatBits]
  | succ f ih =>
    unfold formatBits
    split_ifs
    · simp
    · rw [ih (u / 10) ((48 + u % 10) :: acc), ih (u / 10) [48 + u % 10]]
      simp

theorem formatBits_succ (f u : Nat) :
    formatBits (f + 1) u [] =
      if u < 10 then [48 + u] else formatBits f (u / 10) [] ++ [48 + u % 10] := by
  rw [formatBits]
  split_ifs
  · rfl
  · exact formatBits_acc f (u / 10) [48 + u % 10]

theorem parseDigits_append (xs ys : List Nat) (a : Nat) :
    parseDigits (xs ++ ys) a = (parseDigits xs a).bind (parseDigits ys) := by
  induction xs generalizing a with
  | nil => simp [parseDigits]
  | cons c cs ih =>
    simp only [List.cons_append, parseDigits]
    split_ifs
    · exact ih _
    · rfl

/-- The digit string of a number that fits the buffer: digits only, not empty, no leading
zero unless the number is 0, and it reads back as the number. -/
theorem formatBits_spec (fuel u : Nat) (hfuel : 0 < fuel) (hu : u < 10 ^ fuel) :
    (∀ c ∈ formatBits fuel u [], isDigit c) ∧ formatBits fuel u [] ≠ [] ∧
      (∀ a, parseDigits (formatBits fuel u []) a =
        some (a * 10 ^ (formatBits fuel u []).length + u)) ∧
      (u ≠ 0 → (formatBits fuel u []).head? ≠ some 48) ∧
      (u = 0 → formatBits fuel u [] = [48]) := by
  induction fuel generalizing u with
  | zero => omega
  | succ f ih =>
    rw [formatBits_succ]
    by_cases h10 : u < 10
    · rw [if_pos h10]
      refine ⟨?_, by simp, ?_, ?_, ?_⟩
      · intro c hc
        simp only [List.mem_singleton] at hc
        subst hc
        unfold isDigit
        omega
      · intro a
        have hd : isDigit (48 + u) := by unfold isDigit; omega
        simp [parseDigits, hd]
      · intro h0
        simp only [List.head?_cons, ne_eq, Option.some.injEq]
        omega
      · intro h0
        subst h0
        rfl
    · rw [if_neg h10]
      have hq : u / 10 < 10 ^ f := by
        rw [pow_succ] at hu
        exact Nat.div_lt_of_lt_mul (by rwa [Nat.mul_comm] at hu)
      have hf : 0 < f := by
        rcases Nat.eq_zero_or_pos f with h | h
        · subst h
          simp at hq
          omega
        · exact h
      obtain ⟨i1, i2, i3, i4, _⟩ := ih (u / 10) hf hq
      have hq0 : u / 10 ≠ 0 := by omega
      refine ⟨?_, by simp, ?_, ?_, ?_⟩
      · intro c hc
        rcases List.mem_append.mp hc with h | h
        · exact i1 c h
        · simp only [List.mem_singleton] at h
          subst h
          unfold isDigit
          omega
      · intro a
        have hd : isDigit (48 + u % 10) := by unfold isDigit; omega
        rw [parseDigits_append, i3 a]
        simp only [Option.some_bind, parseDigits, hd, if_true, List.length_append,
          List.length_singleton, Option.some.injEq]
        rw [pow_succ]
        have hdm := Nat.div_add_mod u 10
        have e : 48 + u % 10 - 48 = u % 10 := by omega
        rw [e]
        generalize 10 ^ (formatBits f (u / 10) []).length = p
        have : a * (p * 10) = a * p * 10 := by ring
        rw [this]
        omega
      · intro _
        cases hL : formatBits f (u / 10) [] with
        | nil => exact absurd hL i2
        | cons d ds =>
          rw [hL] at i4
          simpa using i4 hq0
      · intro h0
        omega

/-- The digit string of a `uint64`. -/
theorem digits64_spec (u : Nat) (hu : u < 18446744073709551616) :
    (∀ c ∈ formatBits 20 u [], isDigit c) ∧ formatBits 20 u [] ≠ [] ∧
      ((formatBits 20 u []).head? = some 48 → formatBits 20 u [] = [48]) ∧
      parseDigits (formatBits 20 u []) 0 = some u := by
  have hlt : u < 10 ^ 20 := by
    have : (18446744073709551616 : Nat) < 10 ^ 20 := by norm_num
    omega
  obtain ⟨h1, h2, h3, h4, h5⟩ := formatBits_spec 20 u (by norm_num) hlt
  refine ⟨h1, h2, ?_, ?_⟩
  · intro hh
    by_cases h0 : u = 0
    · exact h5 h0
    · exact absurd hh (h4 h0)
  · rw [h3 0]; simp

theorem parseDecimal_digits (ds : List Nat) (n : Nat) (hd : ∀ c ∈ ds, isDigit c)
    (hne : ds ≠ []) (hp : parseDigits ds 0 = some n) :
    parseDecimal ds = some (n : Int) ∧ parseDecimal (45 :: ds) = some (-(n : Int)) := by
  constructor
  · cases ds with
    | nil => exact absurd rfl hne
    | cons c cs =>
      have hc : isDigit c := hd c (by simp)
      have hne : c ≠ 45 := by unfold isDigit at hc; omega
      simp [parseDecimal, hne, hp]
  · simp [parseDecimal, hne, hp]

theorem FormatUint_spec (u : Nat) (hu : u ≤ 18446744073709551615) :
    minimalDecimal (u : Int) (FormatUint u) ∧ parseDecimal (FormatUint u) = some (u : Int) := by
  have hm : u % 18446744073709551616 = u := Nat.mod_eq_of_lt (by omega)
  unfold FormatUint
  rw [hm]
  obtain ⟨h1, h2, h3, h4⟩ := digits64_spec u (by omega)
  refine ⟨⟨formatBits 20 u [], ?_, h2, h1, h3⟩, (parseDecimal_digits _ u h1 h2 h4).1⟩
  have : ¬ ((u : Int) < 0) := by omega
  rw [if_neg this]

theorem FormatInt_spec (i : Int) (hlo : -9223372036854775808 ≤ i)
    (hhi : i ≤ 9223372036854775807) :
    minimalDecimal i (FormatInt i) ∧ parseDecimal (FormatInt i) = some i := by
  unfold FormatInt
  by_cases hneg : i < 0
  · have hm : (18446744073709551616 - (i % 18446744073709551616).toNat) % 18446744073709551616
        = i.natAbs := by omega
    simp only [hneg, if_true, hm]
    obtain ⟨h1, h2, h3, h4⟩ := digits64_spec i.natAbs (by omega)
    refine ⟨⟨formatBits 20 i.natAbs [], by rw [if_pos hneg], h2, h1, h3⟩, ?_⟩
    rw [(parseDecimal_digits _ i.natAbs h1 h2 h4).2]
    congr 1
    omega
  · have hm : (i % 18446744073709551616).toNat = i.toNat := by omega
    simp only [hneg, if_false, hm]
    obtain ⟨h1, h2, h3, h4⟩ := digits64_spec i.toNat (by omega)
    refine ⟨⟨formatBits 20 i.toNat [], by rw [if_neg hneg], h2, h1, h3⟩, ?_⟩
    rw [(parseDecimal_digits _ i.toNat h1 h2 h4).1]
    congr 1
    omega

/-! ## One field on a sink that never fails -/

theorem emit_nonFailing (s : Sink) (text : List Nat) (h : s.nonFailing) :
    (emit s text).2 = .next false ∧ (emit s text).1.nonFailing ∧
      (emit s text).1.out = s.out ++ text := by
  obtain ⟨h1, h2, h3⟩ := WriteString_nonFailing s text h
  simp only [emit, h1]
  exact ⟨trivial, h2, h3⟩

theorem dispatch_recognized (fmtFloat : Nat → List Nat) (v : Value) (t : List Nat) (s : Sink)
    (h : s.nonFailing) (hv : valueText fmtFloat v = some t) :
    (dispatch fmtFloat v v.kind s).2 = .next false ∧
      (dispatch fmtFloat v v.kind s).1.nonFailing ∧
      (dispatch fmtFloat v v.kind s).1.out = s.out ++ t := by
  cases v <;> simp only [valueText, Option.some.injEq, reduceCtorEq] at hv <;> subst hv
  case bool b =>
    cases b <;> simp only [dispatch, Value.kind, reduceCtorEq, if_false, if_true] <;>
      exact emit_nonFailing s _ h
  case string str =>
    simp only [dispatch, Value.kind, if_true]
    obtain ⟨h1, h2, h3⟩ := writeContent_nonFailing str s h
    generalize writeContent str s = p at h1 h2 h3 ⊢
    obtain ⟨p1, p2⟩ := p
    simp only at h1
    subst h1
    exact ⟨rfl, h2, h3⟩
  case bytes bs =>
    simp only [dispatch, Value.kind, Value.elemKind, reduceCtorEq, if_false, and_self, if_true]
    obtain ⟨h1, h2, h3⟩ := writeContent_nonFailing bs s h
    generalize writeContent bs s = p at h1 h2 h3 ⊢
    obtain ⟨p1, p2⟩ := p
    simp only at h1
    subst h1
    exact ⟨rfl, h2, h3⟩
  all_goals
    simp only [dispatch, Value.kind, reduceCtorEq, if_false, if_true]
    exact emit_nonFailing s _ h

theorem valueText_not_ptr (fmtFloat : Nat → List Nat) (v : Value) (t : List Nat)
    (hv : valueText fmtFloat v = some t) : v.kind ≠ .Ptr := by
  cases v <;> simp [valueText, Value.kind] at hv ⊢

theorem writeQuoted_recognized (fmtFloat : Nat → List Nat) (w : Writer) (v : Value)
    (t : List Nat) (s : Sink) (h : s.nonFailing) (hv : valueText fmtFloat v = some t) :
    (writeQuoted fmtFloat w v s).2 = none ∧ (writeQuoted fmtFloat w v s).1.nonFailing ∧
      (writeQuoted fmtFloat w v s).1.out =
        s.out ++ (encodeRune w.Quote ++ t ++ encodeRune w.Quote) := by
  unfold writeQuoted
  obtain ⟨a1, a2, a3⟩ := WriteRune_nonFailing s w.Quote h
  generalize s.WriteRune w.Quote = p at a1 a2 a3 ⊢
  obtain ⟨s1, e1⟩ := p
  simp only at a1 a2 a3
  subst a1
  simp only []
  obtain ⟨b1, b2, b3⟩ := dispatch_recognized fmtFloat v t s1 a2 hv
  generalize dispatch fmtFloat v v.kind s1 = p at b1 b2 b3 ⊢
  obtain ⟨s2, e2⟩ := p
  simp only at b1 b2 b3
  subst b1
  simp only []
  obtain ⟨c1, c2, c3⟩ := WriteRune_nonFailing s2 w.Quote b2
  generalize s2.WriteRune w.Quote = p at c1 c2 c3 ⊢
  obtain ⟨s3, e3⟩ := p
  simp only at c1 c2 c3
  subst c1
  simp only []
  refine ⟨trivial, c2, ?_⟩
  simp only [c3, b3, a3, List.append_assoc]

theorem writeField_recognized (fmtFloat : Nat → List Nat) (w : Writer) (f : Field)
    (t : List Nat) (s : Sink) (h : s.nonFailing) (hf : fieldText fmtFloat w f = some t) :
    (writeField fmtFloat w f s).2 = none ∧ (writeField fmtFloat w f s).1.nonFailing ∧
      (writeField fmtFloat w f s).1.out = s.out ++ t := by
  cases f with
  | none =>
    simp only [fieldText, Option.some.injEq] at hf
    subst hf
    exact ⟨rfl, (WriteString_nonFailing s _ h).2⟩
  | some v =>
    simp only [fieldText] at hf
    by_cases hk : v.kind = .Ptr
    · rw [if_pos hk] at hf
      by_cases hn : v.isNil = true
      · rw [if_pos hn] at hf
        simp only [Option.some.injEq] at hf
        subst hf
        simp only [writeField, hk, hn, and_self, if_true]
        exact ⟨trivial, (WriteString_nonFailing s _ h).2⟩
      · rw [if_neg hn] at hf
        obtain ⟨t0, ht0, rfl⟩ := Option.map_eq_some'.mp hf
        simp only [writeField, hk, hn, and_false, if_false, if_true]
        exact writeQuoted_recognized fmtFloat w v.indirect t0 s h ht0
    · rw [if_neg hk] at hf
      obtain ⟨t0, ht0, rfl⟩ := Option.map_eq_some'.mp hf
      simp only [writeField, hk, false_and, if_false]
      exact writeQuoted_recognized fmtFloat w v t0 s h ht0

/-! ## The loop over the fields -/

/-- Every field with the delimiter in front of it. -/
theorem intercalate_cons (sep x : List Nat) (xs : List (List Nat)) :
    List.intercalate sep (x :: xs) = x ++ xs.flatMap (fun y => sep ++ y) := by
  induction xs generalizing x with
  | nil => simp [List.intercalate]
  | cons y ys ih =>
    have h := ih y
    simp only [List.intercalate, List.intersperse_cons₂, List.flatten_cons,
      List.flatMap_cons, List.append_assoc] at h ⊢
    rw [h]

theorem joinFields_cons (fmtFloat : Nat → List Nat) (w : Writer) (f : Field)
    (fields : List Field) :
    joinFields fmtFloat w (f :: fields) = (fieldText fmtFloat w f).getD [] ++
      fields.flatMap (fun g => encodeRune w.Delim ++ (fieldText fmtFloat w g).getD []) := by
  simp only [joinFields, List.map_cons, intercalate_cons, List.flatMap_map]

/-- One round of the loop on a recognized field. -/
theorem writeFields_cons (fmtFloat : Nat → List Nat) (w : Writer) (n : Nat) (f : Field)
    (rest : List Field) (s : Sink) (h : s.nonFailing) (hf : recognized fmtFloat w f) :
    ∃ s1 : Sink, s1.nonFailing ∧
      s1.out = s.out ++ ((if n > 0 then encodeRune w.Delim else []) ++
        (fieldText fmtFloat w f).getD []) ∧
      writeFields fmtFloat w n (f :: rest) s = writeFields fmtFloat w (n + 1) rest s1 := by
  obtain ⟨t, ht⟩ := Option.isSome_iff_exists.mp hf
  rw [writeFields]
  by_cases hn : n > 0
  · simp only [hn, if_true]
    obtain ⟨a1, a2, a3⟩ := WriteRune_nonFailing s w.Delim h
    generalize s.WriteRune w.Delim = p at a1 a2 a3 ⊢
    obtain ⟨s1, e1⟩ := p
    simp only at a1 a2 a3
    subst a1
    simp only []
    obtain ⟨b1, b2, b3⟩ := writeField_recognized fmtFloat w f t s1 a2 ht
    generalize writeField fmtFloat w f s1 = p at b1 b2 b3 ⊢
    obtain ⟨s2, e2⟩ := p
    simp only at b1 b2 b3
    subst b1
    simp only []
    refine ⟨s2, b2, ?_, rfl⟩
    rw [b3, a3, ht]
    simp
  · simp only [hn, if_false]
    obtain ⟨b1, b2, b3⟩ := writeField_recognized fmtFloat w f t s h ht
    generalize writeField fmtFloat w f s = p at b1 b2 b3 ⊢
    obtain ⟨s2, e2⟩ := p
    simp only at b1 b2 b3
    subst b1
    simp only []
    refine ⟨s2, b2, ?_, rfl⟩
    rw [b3, ht]
    simp

/-- The loop after its first round: every remaining recognized field is written with the
delimiter in front of it. -/
theorem writeFields_run (fmtFloat : Nat → List Nat) (w : Writer) (n : Nat)
    (pre rest : List Field) (s : Sink) (h : s.nonFailing) (hn : n > 0)
    (hpre : ∀ f ∈ pre, recognized fmtFloat w f) :
    ∃ s1 : Sink, s1.nonFailing ∧
      s1.out = s.out ++
        pre.flatMap (fun g => encodeRune w.Delim ++ (fieldText fmtFloat w g).getD []) ∧
      writeFields fmtFloat w n (pre ++ rest) s =
        writeFields fmtFloat w (n + pre.length) rest s1 := by
  induction pre generalizing n s with
  | nil => exact ⟨s, h, by simp, rfl⟩
  | cons f fs ih =>
    obtain ⟨s1, a1, a2, a3⟩ :=
      writeFields_cons fmtFloat w n f (fs ++ rest) s h (hpre f (by simp))
    obtain ⟨s2, b1, b2, b3⟩ := ih (n + 1) s1 a1 (by omega)
      (fun g hg => hpre g (List.mem_cons_of_mem f hg))
    refine ⟨s2, b1, ?_, ?_⟩
    · rw [b2, a2, if_pos hn]
      simp [List.flatMap_cons]
    · rw [List.cons_append, a3, b3]
      congr 1
      simp only [List.length_cons]
      omega

/-- The loop from its start over a run of recognized fields: the fields are written
joined by the delimiter. -/
theorem writeFields_start (fmtFloat : Nat → List Nat) (w : Writer)
    (pre rest : List Field) (s : Sink) (h : s.nonFailing)
    (hpre : ∀ f ∈ pre, recognized fmtFloat w f) :
    ∃ s1 : Sink, s1.nonFailing ∧ s1.out = s.out ++ joinFields fmtFloat w pre ∧
      writeFields fmtFloat w 0 (pre ++ rest) s =
        writeFields fmtFloat w pre.length rest s1 := by
  cases pre with
  | nil => exact ⟨s, h, by simp [joinFields, List.intercalate], rfl⟩
  | cons f fs =>
    obtain ⟨s1, a1, a2, a3⟩ :=
      writeFields_cons fmtFloat w 0 f (fs ++ rest) s h (hpre f (by simp))
    obtain ⟨s2, b1, b2, b3⟩ := writeFields_run fmtFloat w 1 fs rest s1 a1 (by omega)
      (fun g hg => hpre g (List.mem_cons_of_mem f hg))
    refine ⟨s2, b1, ?_, ?_⟩
    · rw [b2, a2, joinFields_cons]
      simp
    · rw [List.cons_append, a3, b3]
      congr 1
      simp only [List.length_cons]
      omega

theorem Write_recognized (fmtFloat : Nat → List Nat) (w : Writer) (fields : List Field)
    (s : Sink) (h : s.nonFailing) (hf : ∀ f ∈ fields, recognized fmtFloat w f) :
    (Write fmtFloat w fields s).2 = .ok ∧ (Write fmtFloat w fields s).1.nonFailing ∧
      (Write fmtFloat w fields s).1.out =
        s.out ++ joinFields fmtFloat w fields ++ w.LineEnd := by
  obtain ⟨s1, a1, a2, a3⟩ := writeFields_start fmtFloat w fields [] s h hf
  rw [List.append_nil] at a3
  obtain ⟨_, c2, c3⟩ := WriteString_nonFailing s1 w.LineEnd a1
  rw [Write, a3, writeFields]
  exact ⟨rfl, c2, by rw [c3, a2]⟩

/-! ## Unsupported fields -/

theorem dispatch_unsupported (fmtFloat : Nat → List Nat) (v : Value) (s : Sink)
    (hv : dispatched v = false) :
    dispatch fmtFloat v v.kind s = (s, .ret (.error (.unsupported v.kind))) := by
  simp only [dispatched, List.mem_cons, List.mem_singleton, List.not_mem_nil, or_false,
    Bool.or_eq_false_iff, decide_eq_false_iff_not, not_or, Bool.and_eq_false_iff,
    Bool.decide_and, Bool.decide_eq_true] at hv
  obtain ⟨⟨h1, h2, h3, h4, h5, h6, h7, h8, h9, h10, h11, h12, h13, h14⟩, h15⟩ := hv
  have h16 : ¬ (v.kind = .Slice ∧ v.elemKind = .Uint8) := by
    rintro ⟨a, b⟩
    rcases h15 with h | h
    · exact h a
    · exact h b
  unfold dispatch
  simp only [h1, h2, h3, h4, h5, h6, h7, h8, h9, h10, h11, h12, h13, h14, h16, if_false]

theorem writeField_unsupported (fmtFloat : Nat → List Nat) (w : Writer) (f : Field) (k : Kind)
    (s : Sink) (h : s.nonFailing) (hf : unsupportedKind f = some k) :
    (writeField fmtFloat w f s).2 = some (.error (.unsupported k)) ∧
      (writeField fmtFloat w f s).1.out = s.out ++ encodeRune w.Quote := by
  have key : ∀ v : Value, dispatched v = false →
      (writeQuoted fmtFloat w v s).2 = some (.error (.unsupported v.kind)) ∧
        (writeQuoted fmtFloat w v s).1.out = s.out ++ encodeRune w.Quote := by
    intro v hv
    unfold writeQuoted
    obtain ⟨a1, a2, a3⟩ := WriteRune_nonFailing s w.Quote h
    generalize s.WriteRune w.Quote = p at a1 a2 a3 ⊢
    obtain ⟨s1, e1⟩ := p
    simp only at a1 a2 a3
    subst a1
    simp only [dispatch_unsupported fmtFloat v s1 hv]
    exact ⟨trivial, a3⟩
  cases f with
  | none => simp [unsupportedKind] at hf
  | some v =>
    simp only [unsupportedKind] at hf
    by_cases hk : v.kind = .Ptr
    · rw [if_pos hk] at hf
      by_cases hn : v.isNil = true
      · rw [if_pos hn] at hf
        exact absurd hf (by simp)
      · rw [if_neg hn] at hf
        by_cases hd : dispatched v.indirect = true
        · rw [if_pos hd] at hf
          exact absurd hf (by simp)
        · rw [if_neg hd] at hf
          simp only [Option.some.injEq] at hf
          subst hf
          simp only [writeField, hk, hn, and_false, if_false, if_true]
          exact key v.indirect (by simpa using hd)
    · rw [if_neg hk] at hf
      by_cases hd : dispatched v = true
      · rw [if_pos hd] at hf
        exact absurd hf (by simp)
      · rw [if_neg hd] at hf
        simp only [Option.some.injEq] at hf
        subst hf
        simp only [writeField, hk, false_and, if_false]
        exact key v (by simpa using hd)

/-- The loop stops at an unsupported field, after the delimiter and the opening quote. -/
theorem writeFields_unsupported (fmtFloat : Nat → List Nat) (w : Writer) (n : Nat) (f : Field)
    (k : Kind) (rest : List Field) (s : Sink) (h : s.nonFailing)
    (hf : unsupportedKind f = some k) :
    (writeFields fmtFloat w n (f :: rest) s).2 = .error (.unsupported k) ∧
      (writeFields fmtFloat w n (f :: rest) s).1.out =
        s.out ++ (if n > 0 then encodeRune w.Delim else []) ++ encodeRune w.Quote := by
  rw [writeFields]
  by_cases hn : n > 0
  · simp only [hn, if_true]
    obtain ⟨a1, a2, a3⟩ := WriteRune_nonFailing s w.Delim h
    generalize s.WriteRune w.Delim = p at a1 a2 a3 ⊢
    obtain ⟨s1, e1⟩ := p
    simp only at a1 a2 a3
    subst a1
    simp only []
    obtain ⟨b1, b2⟩ := writeField_unsupported fmtFloat w f k s1 a2 hf
    generalize writeField fmtFloat w f s1 = p at b1 b2 ⊢
    obtain ⟨s2, e2⟩ := p
    simp only at b1 b2
    subst b1
    simp only []
    exact ⟨trivial, by rw [b2, a3]⟩
  · simp only [hn, if_false]
    obtain ⟨b1, b2⟩ := writeField_unsupported fmtFloat w f k s h hf
    generalize writeField fmtFloat w f s = p at b1 b2 ⊢
    obtain ⟨s2, e2⟩ := p
    simp only at b1 b2
    subst b1
    simp only []
    exact ⟨trivial, by rw [b2]; simp⟩

/-! ## Auxiliary facts for the claims -/

theorem length_pos_iff_ne_nil (pre : List Field) : pre.length > 0 ↔ ¬ pre = [] := by
  cases pre <;> simp

/-- The text of an integer value in the range of its type. -/
theorem valueText_integer (fmtFloat : Nat → List Nat) (v : Value) (val : Int)
    (hv : intValue v = some val) :
    ∃ text, valueText fmtFloat v = some text ∧ v.kind ≠ .Ptr ∧ minimalDecimal val text ∧
      parseDecimal text = some val := by
  cases v <;> simp only [intValue, reduceCtorEq] at hv
  case int i =>
    split_ifs at hv with hr
    simp only [Option.some.injEq] at hv
    subst hv
    exact ⟨Itoa i, rfl, by simp [Value.kind], FormatInt_spec i hr.1 hr.2⟩
  case int8 i =>
    split_ifs at hv with hr
    simp only [Option.some.injEq] at hv
    subst hv
    exact ⟨Itoa i, rfl, by simp [Value.kind], FormatInt_spec i (by omega) (by omega)⟩
  case int16 i =>
    split_ifs at hv with hr
    simp only [Option.some.injEq] at hv
    subst hv
    exact ⟨Itoa i, rfl, by simp [Value.kind], FormatInt_spec i (by omega) (by omega)⟩
  case int32 i =>
    split_ifs at hv with hr
    simp only [Option.some.injEq] at hv
    subst hv
    exact ⟨Itoa i, rfl, by simp [Value.kind], FormatInt_spec i (by omega) (by omega)⟩
  case int64 i =>
    split_ifs at hv with hr
    simp only [Option.some.injEq] at hv
    subst hv
    exact ⟨FormatInt i, rfl, by simp [Value.kind], FormatInt_spec i hr.1 hr.2⟩
  case uint u =>
    split_ifs at hv with hr
    simp only [Option.some.injEq] at hv
    subst hv
    exact ⟨FormatUint u, rfl, by simp [Value.kind], FormatUint_spec u hr⟩
  case uint8 u =>
    split_ifs at hv with hr
    simp only [Option.some.injEq] at hv
    subst hv
    exact ⟨FormatUint u, rfl, by simp [Value.kind], FormatUint_spec u (by omega)⟩
  case uint16 u =>
    split_ifs at hv with hr
    simp only [Option.some.injEq] at hv
    subst hv
    exact ⟨FormatUint u, rfl, by simp [Value.kind], FormatUint_spec u (by omega)⟩
  case uint32 u =>
    split_ifs at hv with hr
    simp only [Option.some.injEq] at hv
    subst hv
    exact ⟨FormatUint u, rfl, by simp [Value.kind], FormatUint_spec u (by omega)⟩
  case uint64 u =>
    split_ifs at hv with hr
    simp only [Option.some.injEq] at hv
    subst hv
    exact ⟨FormatUint u, rfl, by simp [Value.kind], FormatUint_spec u hr⟩

/-! ## The claims -/

/-- C1: on a sink that never fails, `writeByte` appends exactly the Escape Table replacement
of the byte: 0x00, backslash, LF, CR, TAB and 0x1A become a backslash followed by `0`, `b`,
`n`, `r`, `t`, `Z`, and every other byte, the quote character and 0x08 among them, is copied
as one byte; the content of a string or byte field is written as the concatenation of these
replacements in input order. -/
theorem writeByte_escape_table (b : Nat) (content : List Nat) (s : Sink) (h : s.nonFailing) :
    (writeByte b s).2 = false ∧
      (writeByte b s).1.out = s.out ++ escapeTable b ∧
      escapeTable b =
        (if b = 0x00 then [0x5C, 0x30]
         else if b = 0x5C then [0x5C, 0x62]
         else if b = 0x0A then [0x5C, 0x6E]
         else if b = 0x0D then [0x5C, 0x72]
         else if b = 0x09 then [0x5C, 0x74]
         else if b = 0x1A then [0x5C, 0x5A]
         else [b]) ∧
      escapeTable 0x22 = [0x22] ∧ escapeTable 0x08 = [0x08] ∧
      (writeContent content s).2 = false ∧
      (writeContent content s).1.out = s.out ++ (content.map escapeTable).flatten := by
  obtain ⟨h1, _, h3⟩ := writeByte_nonFailing b s h
  obtain ⟨c1, _, c3⟩ := writeContent_nonFailing content s h
  refine ⟨h1, h3, rfl, by decide, by decide, c1, ?_⟩
  rw [c3, List.flatMap_def]

theorem writeByte_escape_table_witness :
    (Sink.fresh none).nonFailing ∧
      ((writeByte 0x5C (Sink.fresh none)).2 = false ∧
      (writeByte 0x5C (Sink.fresh none)).1.out = (Sink.fresh none).out ++ escapeTable 0x5C ∧
      escapeTable 0x5C =
        (if 0x5C = 0x00 then [0x5C, 0x30]
         else if 0x5C = 0x5C then [0x5C, 0x62]
         else if 0x5C = 0x0A then [0x5C, 0x6E]
         else if 0x5C = 0x0D then [0x5C, 0x72]
         else if 0x5C = 0x09 then [0x5C, 0x74]
         else if 0x5C = 0x1A then [0x5C, 0x5A]
         else [0x5C]) ∧
      escapeTable 0x22 = [0x22] ∧ escapeTable 0x08 = [0x08] ∧
      (writeContent [0x61, 0x0A, 0x22] (Sink.fresh none)).2 = false ∧
      (writeContent [0x61, 0x0A, 0x22] (Sink.fresh none)).1.out =
        (Sink.fresh none).out ++ ([0x61, 0x0A, 0x22].map escapeTable).flatten) :=
  ⟨by decide, writeByte_escape_table 0x5C [0x61, 0x0A, 0x22] (Sink.fresh none) (by decide)⟩

/-- C2: for every configuration and every record of recognized fields written to a sink that
never fails, `Write` returns nil and appends the encodings of the fields joined by exactly one
delimiter between consecutive fields, followed by the line end exactly once; with no field it
appends the line end only. -/
theorem Write_joins_fields (fmtFloat : Nat → List Nat) (w : Writer) (fields : List Field)
    (s : Sink) (h : s.nonFailing) (hf : ∀ f ∈ fields, recognized fmtFloat w f) :
    (Write fmtFloat w fields s).2 = .ok ∧
      (Write fmtFloat w fields s).1.out =
        s.out ++ List.intercalate (encodeRune w.Delim)
          (fields.map (fun f => (fieldText fmtFloat w f).getD [])) ++ w.LineEnd ∧
      (Write fmtFloat w [] s).1.out = s.out ++ w.LineEnd := by
  obtain ⟨h1, _, h3⟩ := Write_recognized fmtFloat w fields s h hf
  obtain ⟨_, _, e3⟩ := Write_recognized fmtFloat w [] s h (by simp)
  refine ⟨h1, h3, ?_⟩
  rw [e3]
  simp [joinFields, List.intercalate]

theorem Write_joins_fields_witness :
    (Sink.fresh none).nonFailing ∧
      (∀ f ∈ [some (Value.string [0x61]), none, some (Value.ptr (Value.uint8 7))],
        recognized noFloats NewWriter f) ∧
      ((Write noFloats NewWriter
          [some (Value.string [0x61]), none, some (Value.ptr (Value.uint8 7))]
          (Sink.fresh none)).2 = .ok ∧
      (Write noFloats NewWriter
          [some (Value.string [0x61]), none, some (Value.ptr (Value.uint8 7))]
          (Sink.fresh none)).1.out =
        (Sink.fresh none).out ++ List.intercalate (encodeRune NewWriter.Delim)
          ([some (Value.string [0x61]), none, some (Value.ptr (Value.uint8 7))].map
            (fun f => (fieldText noFloats NewWriter f).getD [])) ++ NewWriter.LineEnd ∧
      (Write noFloats NewWriter [] (Sink.fresh none)).1.out =
        (Sink.fresh none).out ++ NewWriter.LineEnd) :=
  ⟨by decide, by decide,
    Write_joins_fields noFloats NewWriter
      [some (Value.string [0x61]), none, some (Value.ptr (Value.uint8 7))]
      (Sink.fresh none) (by decide) (by decide)⟩

/-- C3: a field that is nil or a nil pointer, at any position of a record of recognized
fields written to a sink that never fails, is written as exactly the two bytes backslash
and `N`, directly after the delimiter (when it is not the first field) and directly before
the next delimiter or the line end, without quote characters; `Write(nil)` on a default
writer yields backslash, `N` and a line feed. -/
theorem Write_nil_field (fmtFloat : Nat → List Nat) (w : Writer) (pre post : List Field)
    (f : Field) (s : Sink) (h : s.nonFailing)
    (hnil : f = none ∨ ∃ v, f = some v ∧ v.kind = .Ptr ∧ v.isNil = true)
    (hpre : ∀ g ∈ pre, recognized fmtFloat w g)
    (hpost : ∀ g ∈ post, recognized fmtFloat w g) :
    (Write fmtFloat w (pre ++ f :: post) s).2 = .ok ∧
      (Write fmtFloat w (pre ++ f :: post) s).1.out =
        s.out ++ joinFields fmtFloat w pre ++ (if pre = [] then [] else encodeRune w.Delim) ++
          [0x5C, 0x4E] ++
          post.flatMap (fun g => encodeRune w.Delim ++ (fieldText fmtFloat w g).getD []) ++
          w.LineEnd ∧
      (Write fmtFloat NewWriter [none] create).2 = .ok ∧
      (Write fmtFloat NewWriter [none] create).1.out = [0x5C, 0x4E, 0x0A] := by
  have ht : fieldText fmtFloat w f = some [0x5C, 0x4E] := by
    rcases hnil with rfl | ⟨v, rfl, hk, hn⟩
    · rfl
    · simp [fieldText, hk, hn]
  have hrec : recognized fmtFloat w f := by
    unfold recognized
    rw [ht]
    rfl
  obtain ⟨s1, a1, a2, a3⟩ := writeFields_start fmtFloat w pre (f :: post) s h hpre
  obtain ⟨s2, b1, b2, b3⟩ := writeFields_cons fmtFloat w pre.length f post s1 a1 hrec
  obtain ⟨s3, c1, c2, c3⟩ :=
    writeFields_run fmtFloat w (pre.length + 1) post [] s2 b1 (by omega) hpost
  obtain ⟨_, _, d3⟩ := WriteString_nonFailing s3 w.LineEnd c1
  rw [List.append_nil] at c3
  refine ⟨?_, ?_, rfl, rfl⟩
  · rw [Write, a3, b3, c3, writeFields]
  · rw [Write, a3, b3, c3, writeFields]
    simp only []
    rw [d3, c2, b2, a2, ht]
    by_cases hp : pre = []
    · subst hp
      simp
    · have hl : pre.length > 0 := (length_pos_iff_ne_nil pre).mpr hp
      simp [hp, hl]

theorem Write_nil_field_witness :
    (Sink.fresh none).nonFailing ∧
      ((some Value.nilPtr : Field) = none ∨
        ∃ v, (some Value.nilPtr : Field) = some v ∧ v.kind = .Ptr ∧ v.isNil = true) ∧
      (∀ g ∈ [some (Value.bool true)], recognized noFloats NewWriter g) ∧
      (∀ g ∈ [some (Value.int 5)], recognized noFloats NewWriter g) ∧
      ((Write noFloats NewWriter ([some (Value.bool true)] ++ some Value.nilPtr ::
          [some (Value.int 5)]) (Sink.fresh none)).2 = .ok ∧
      (Write noFloats NewWriter ([some (Value.bool true)] ++ some Value.nilPtr ::
          [some (Value.int 5)]) (Sink.fresh none)).1.out =
        (Sink.fresh none).out ++ joinFields noFloats NewWriter [some (Value.bool true)] ++
          (if [some (Value.bool true)] = [] then [] else encodeRune NewWriter.Delim) ++
          [0x5C, 0x4E] ++
          [some (Value.int 5)].flatMap
            (fun g => encodeRune NewWriter.Delim ++ (fieldText noFloats NewWriter g).getD []) ++
          NewWriter.LineEnd ∧
      (Write noFloats NewWriter [none] create).2 = .ok ∧
      (Write noFloats NewWriter [none] create).1.out = [0x5C, 0x4E, 0x0A]) :=
  ⟨by decide, Or.inr ⟨Value.nilPtr, rfl, rfl, rfl⟩, by decide, by decide,
    Write_nil_field noFloats NewWriter [some (Value.bool true)] [some (Value.int 5)]
      (some Value.nilPtr) (Sink.fresh none) (by decide) (Or.inr ⟨Value.nilPtr, rfl, rfl, rfl⟩)
      (by decide) (by decide)⟩

/-- C4: on the fields of `TestWriterString` the default writer returns nil and flushes
without error, but its output is not the one the test requires: the quote character is
copied as it is and the backslash is written as backslash and `b`, the byte 0x08 is
copied. -/
theorem TestWriterString_output :
    (Write noFloats NewWriter TestWriterString_fields create).2 = .ok ∧
      (Write noFloats NewWriter TestWriterString_fields create).1.Flush.2 = false ∧
      (Write noFloats NewWriter TestWriterString_fields create).1.out =
        [0x22, 0x68, 0x61, 0x6C, 0x6C, 0x6F, 0x22, 0x2C,
          0x22, 0x22, 0x22, 0x2C,
          0x22, 0x5C, 0x62, 0x5C, 0x6E, 0x5C, 0x72, 0x5C, 0x74, 0x08, 0x5C, 0x5A, 0x22, 0x0A] ∧
      (Write noFloats NewWriter TestWriterString_fields create).1.out ≠
        TestWriterString_expected := by
  decide

/-- C5: on the 32 bytes of `TestWriteByteArray` the default writer returns nil, but its
output is not the one the test requires: the byte 0x08 is copied unchanged, where the test
requires backslash and `b`. -/
theorem TestWriteByteArray_output :
    (Write noFloats NewWriter TestWriteByteArray_fields create).2 = .ok ∧
      (Write noFloats NewWriter TestWriteByteArray_fields create).1.out =
        [0x22, 0x5C, 0x30, 0x01, 0x02, 0x03, 0x04, 0x05, 0x06, 0x07, 0x08, 0x5C, 0x74,
          0x5C, 0x6E, 0x0B, 0x0C, 0x5C, 0x72, 0x0E, 0x0F, 0x10, 0x11, 0x12, 0x13, 0x14, 0x15,
          0x16, 0x17, 0x18, 0x19, 0x5C, 0x5A, 0x1B, 0x1C, 0x1D, 0x1E, 0x1F, 0x22, 0x0A] ∧
      (Write noFloats NewWriter TestWriteByteArray_fields create).1.out ≠
        TestWriteByteArray_expected := by
  decide

/-- C6: on the two instants of `TestWriteTime` the default writer does not return nil: a
`time.Time` has kind `Struct`, for which the type dispatch has no branch, so `Write` returns
the unsupported-type error after the opening quote of the first field. -/
theorem TestWriteTime_output :
    (Write noFloats NewWriter TestWriteTime_fields create).2 = .error (.unsupported .Struct) ∧
      (Write noFloats NewWriter TestWriteTime_fields create).1.out = [0x22] ∧
      (Write noFloats NewWriter TestWriteTime_fields create).1.out ≠ TestWriteTime_expected := by
  decide

/-- C7: a record of recognized kinds for which `Write` does not return nil on a sink that
never fails: the zero `time.Time` is rejected with the unsupported-type error (and a value
of a defined type of kind `String` makes the type assertion panic), while the struct of
`TestWriteInvalidType` is rejected as the claim says. -/
theorem Write_time_rejected :
    (Write noFloats NewWriter [some (Value.time Time.zero)] create).2 =
        .error (.unsupported .Struct) ∧
      (Write noFloats NewWriter [some (Value.named (Value.string [0x61]))] create).2 = .panic ∧
      (Write noFloats NewWriter [some (Value.other .Struct)] create).2 =
        .error (.unsupported .Struct) := by
  decide

/-- C8, as the claim states it, fails: a record whose only field is a struct leaves the
opening quote character in the sink, where the claim allows no byte at all. -/
theorem Write_unsupported_opening_quote :
    unsupportedKind (some (Value.other .Struct)) = some .Struct ∧
      (Write noFloats NewWriter [some (Value.other .Struct)] create).2 =
        .error (.unsupported .Struct) ∧
      (Write noFloats NewWriter [some (Value.other .Struct)] create).1.out = [0x22] ∧
      ¬ ((Write noFloats NewWriter [some (Value.other .Struct)] create).1.out =
        create.out ++ joinFields noFloats NewWriter []) := by
  decide

/-- C8, amended: when the first unsupported field of a record is at position i and the
fields before it are recognized, `Write` on a sink that never fails returns the
unsupported-type error, and the bytes appended are exactly the encodings of the fields
0..i-1 joined by the delimiter, the delimiter in front of field i (if i > 0) and the opening
quote character of field i: no content, no closing quote and no line end are written. -/
theorem Write_unsupported_field (fmtFloat : Nat → List Nat) (w : Writer)
    (pre post : List Field) (f : Field) (k : Kind) (s : Sink) (h : s.nonFailing)
    (hpre : ∀ g ∈ pre, recognized fmtFloat w g) (hf : unsupportedKind f = some k) :
    (Write fmtFloat w (pre ++ f :: post) s).2 = .error (.unsupported k) ∧
      (Write fmtFloat w (pre ++ f :: post) s).1.out =
        s.out ++ joinFields fmtFloat w pre ++ (if pre = [] then [] else encodeRune w.Delim) ++
          encodeRune w.Quote := by
  obtain ⟨s1, a1, a2, a3⟩ := writeFields_start fmtFloat w pre (f :: post) s h hpre
  obtain ⟨b1, b2⟩ := writeFields_unsupported fmtFloat w pre.length f k post s1 a1 hf
  rw [Write, a3]
  refine ⟨b1, ?_⟩
  rw [b2, a2]
  by_cases hp : pre = []
  · subst hp
    simp
  · have hl : pre.length > 0 := (length_pos_iff_ne_nil pre).mpr hp
    simp [hp, hl]

theorem Write_unsupported_field_witness :
    (Sink.fresh none).nonFailing ∧
      (∀ g ∈ [some (Value.string [0x61]), none], recognized noFloats NewWriter g) ∧
      unsupportedKind (some (Value.ptr (Value.ptr (Value.bool true)))) = some .Ptr ∧
      ((Write noFloats NewWriter ([some (Value.string [0x61]), none] ++
          some (Value.ptr (Value.ptr (Value.bool true))) :: [some (Value.bool true)])
          (Sink.fresh none)).2 = .error (.unsupported .Ptr) ∧
      (Write noFloats NewWriter ([some (Value.string [0x61]), none] ++
          some (Value.ptr (Value.ptr (Value.bool true))) :: [some (Value.bool true)])
          (Sink.fresh none)).1.out =
        (Sink.fresh none).out ++ joinFields noFloats NewWriter [some (Value.string [0x61]), none] ++
          (if [some (Value.string [0x61]), none] = [] then [] else encodeRune NewWriter.Delim) ++
          encodeRune NewWriter.Quote) :=
  ⟨by decide, by decide, by decide,
    Write_unsupported_field noFloats NewWriter [some (Value.string [0x61]), none]
      [some (Value.bool true)] (some (Value.ptr (Value.ptr (Value.bool true)))) .Ptr
      (Sink.fresh none) (by decide) (by decide) (by decide)⟩

/-- C9: the unescape function that reads a backslash together with the character after it
(`0`, `b`, `n`, `r`, `t`, `Z` back to 0x00, 0x5C, 0x0A, 0x0D, 0x09, 0x1A) and copies every
other byte recovers every byte sequence from its escaped form, the concatenation of the
outputs of `writeByte`; hence escaping is injective. -/
theorem unescape_escape :
    (∀ content : List Nat, escape content = (content.map escapeTable).flatten) ∧
      (∀ content : List Nat, unescape (escape content) = content) ∧
      Function.Injective escape := by
  have h : ∀ content : List Nat, unescape (escape content) = content := by
    intro content
    rw [escape_eq, unescape_flatMap]
  exact ⟨fun content => by rw [escape_eq, List.flatMap_def], h,
    Function.LeftInverse.injective h⟩

/-- C10: for every signed or unsigned integer field of any width holding a value in the
range of its type, `Write` on a sink that never fails returns nil and emits, between quote
characters, the minimal base-10 text of the value: digits only after a single `-` for a
negative number, no leading zero except for 0 itself, and the text parses back to the value
(the minimum of `int64` and the `uint64` values above 2^63-1 included). -/
theorem Write_integer_decimal (fmtFloat : Nat → List Nat) (w : Writer) (v : Value) (val : Int)
    (s : Sink) (h : s.nonFailing) (hv : intValue v = some val) :
    ∃ text : List Nat,
      (Write fmtFloat w [some v] s).2 = .ok ∧
      (Write fmtFloat w [some v] s).1.out =
        s.out ++ encodeRune w.Quote ++ text ++ encodeRune w.Quote ++ w.LineEnd ∧
      minimalDecimal val text ∧ parseDecimal text = some val := by
  obtain ⟨text, h1, h2, h3, h4⟩ := valueText_integer fmtFloat v val hv
  have ht : fieldText fmtFloat w (some v) =
      some (encodeRune w.Quote ++ text ++ encodeRune w.Quote) := by
    simp [fieldText, h2, h1]
  have hrec : ∀ f ∈ [some v], recognized fmtFloat w f := by
    intro f hf
    simp only [List.mem_singleton] at hf
    subst hf
    unfold recognized
    rw [ht]
    rfl
  obtain ⟨a1, _, a3⟩ := Write_recognized fmtFloat w [some v] s h hrec
  refine ⟨text, a1, ?_, h3, h4⟩
  rw [a3, joinFields_cons, ht]
  simp

theorem Write_integer_decimal_witness :
    (Sink.fresh none).nonFailing ∧
      intValue (Value.int64 (-9223372036854775808)) = some (-9223372036854775808) ∧
      ∃ text : List Nat,
        (Write noFloats NewWriter [some (Value.int64 (-9223372036854775808))]
          (Sink.fresh none)).2 = .ok ∧
        (Write noFloats NewWriter [some (Value.int64 (-9223372036854775808))]
          (Sink.fresh none)).1.out =
          (Sink.fresh none).out ++ encodeRune NewWriter.Quote ++ text ++
            encodeRune NewWriter.Quote ++ NewWriter.LineEnd ∧
        minimalDecimal (-9223372036854775808) text ∧
        parseDecimal text = some (-9223372036854775808) :=
  ⟨by decide, by decide,
    Write_integer_decimal noFloats NewWriter (Value.int64 (-9223372036854775808))
      (-9223372036854775808) (Sink.fresh none) (by decide) (by decide)⟩

/-! ## Further auxiliary facts -/

/-! ## Pointers -/

theorem writeField_ptr (fmtFloat : Nat → List Nat) (w : Writer) (v : Value) (s : Sink)
    (hv : v.kind ≠ .Ptr) :
    writeField fmtFloat w (some (Value.ptr v)) s = writeField fmtFloat w (some v) s := by
  simp [writeField, Value.kind, Value.isNil, Value.indirect, hv]

/-- The loop does the same on two records that differ in one field, when the loop body does
the same on the two fields. -/
theorem writeFields_congr (fmtFloat : Nat → List Nat) (w : Writer) (a b : Field)
    (hab : ∀ s, writeField fmtFloat w a s = writeField fmtFloat w b s)
    (pre post : List Field) (n : Nat) (s : Sink) :
    writeFields fmtFloat w n (pre ++ a :: post) s =
      writeFields fmtFloat w n (pre ++ b :: post) s := by
  induction pre generalizing n s with
  | nil =>
    simp only [List.nil_append, writeFields, hab]
  | cons f fs ih =>
    rw [List.cons_append, List.cons_append, writeFields, writeFields]
    simp only [ih]

/-! ## Texts without reserved bytes -/

theorem formatBits64_digits (u : Nat) (hu : u < 18446744073709551616) :
    formatBits 20 u [] ≠ [] ∧ ∀ c ∈ formatBits 20 u [], isDigit c :=
  ⟨(digits64_spec u hu).2.1, (digits64_spec u hu).1⟩

/-- The text of a bool or an integer, whatever its payload: digits after at most one `-`. -/
theorem valueText_boolOrInteger (fmtFloat : Nat → List Nat) (v : Value)
    (hv : boolOrInteger v = true) :
    ∃ text ds, valueText fmtFloat v = some text ∧ v.kind ≠ .Ptr ∧
      (text = ds ∨ text = 45 :: ds) ∧ ds ≠ [] ∧ ∀ c ∈ ds, isDigit c := by
  have hU : ∀ u : Nat, ∃ ds, (FormatUint u = ds ∨ FormatUint u = 45 :: ds) ∧ ds ≠ [] ∧
      ∀ c ∈ ds, isDigit c := by
    intro u
    have hlt : u % 18446744073709551616 < 18446744073709551616 := Nat.mod_lt _ (by norm_num)
    obtain ⟨h1, h2⟩ := formatBits64_digits _ hlt
    exact ⟨_, Or.inl rfl, h1, h2⟩
  have hI : ∀ i : Int, ∃ ds, (FormatInt i = ds ∨ FormatInt i = 45 :: ds) ∧ ds ≠ [] ∧
      ∀ c ∈ ds, isDigit c := by
    intro i
    unfold FormatInt
    by_cases hneg : i < 0
    · simp only [hneg, if_true]
      have hlt : (18446744073709551616 - (i % 18446744073709551616).toNat) %
          18446744073709551616 < 18446744073709551616 := Nat.mod_lt _ (by norm_num)
      obtain ⟨h1, h2⟩ := formatBits64_digits _ hlt
      exact ⟨_, Or.inr rfl, h1, h2⟩
    · simp only [hneg, if_false]
      have hlt : (i % 18446744073709551616).toNat < 18446744073709551616 := by omega
      obtain ⟨h1, h2⟩ := formatBits64_digits _ hlt
      exact ⟨_, Or.inl rfl, h1, h2⟩
  cases v <;> simp only [boolOrInteger, Bool.false_eq_true] at hv
  case bool b =>
    cases b
    · exact ⟨[0x30], [0x30], rfl, by simp [Value.kind], Or.inl rfl, by simp, by
        intro c hc; simp only [List.mem_singleton] at hc; subst hc; decide⟩
    · exact ⟨[0x31], [0x31], rfl, by simp [Value.kind], Or.inl rfl, by simp, by
        intro c hc; simp only [List.mem_singleton] at hc; subst hc; decide⟩
  case int i =>
    obtain ⟨ds, h1, h2, h3⟩ := hI i
    exact ⟨_, ds, rfl, by simp [Value.kind], h1, h2, h3⟩
  case int8 i =>
    obtain ⟨ds, h1, h2, h3⟩ := hI i
    exact ⟨_, ds, rfl, by simp [Value.kind], h1, h2, h3⟩
  case int16 i =>
    obtain ⟨ds, h1, h2, h3⟩ := hI i
    exact ⟨_, ds, rfl, by simp [Value.kind], h1, h2, h3⟩
  case int32 i =>
    obtain ⟨ds, h1, h2, h3⟩ := hI i
    exact ⟨_, ds, rfl, by simp [Value.kind], h1, h2, h3⟩
  case int64 i =>
    obtain ⟨ds, h1, h2, h3⟩ := hI i
    exact ⟨_, ds, rfl, by simp [Value.kind], h1, h2, h3⟩
  case uint u =>
    obtain ⟨ds, h1, h2, h3⟩ := hU u
    exact ⟨_, ds, rfl, by simp [Value.kind], h1, h2, h3⟩
  case uint8 u =>
    obtain ⟨ds, h1, h2, h3⟩ := hU u
    exact ⟨_, ds, rfl, by simp [Value.kind], h1, h2, h3⟩
  case uint16 u =>
    obtain ⟨ds, h1, h2, h3⟩ := hU u
    exact ⟨_, ds, rfl, by simp [Value.kind], h1, h2, h3⟩
  case uint32 u =>
    obtain ⟨ds, h1, h2, h3⟩ := hU u
    exact ⟨_, ds, rfl, by simp [Value.kind], h1, h2, h3⟩
  case uint64 u =>
    obtain ⟨ds, h1, h2, h3⟩ := hU u
    exact ⟨_, ds, rfl, by simp [Value.kind], h1, h2, h3⟩

/-- A digit or `-` is not a byte the Escape Table replaces. -/
theorem digit_not_reserved (c : Nat) (hc : isDigit c ∨ c = 45) : c ∉ reservedBytes := by
  unfold isDigit at hc
  simp only [reservedBytes, List.mem_cons, List.mem_singleton, List.not_mem_nil, or_false,
    not_or]
  omega

theorem signed_digits_not_reserved (text ds : List Nat) (ht : text = ds ∨ text = 45 :: ds)
    (hd : ∀ c ∈ ds, isDigit c) : ∀ c ∈ text, c ∉ reservedBytes := by
  intro c hc
  rcases ht with rfl | rfl
  · exact digit_not_reserved c (Or.inl (hd c hc))
  · rcases List.mem_cons.mp hc with h | h
    · exact digit_not_reserved c (Or.inr h)
    · exact digit_not_reserved c (Or.inl (hd c h))

theorem escapeTable_of_not_reserved (c : Nat) (hc : c ∉ reservedBytes) :
    escapeTable c = [c] := by
  simp only [reservedBytes, List.mem_cons, List.mem_singleton, List.not_mem_nil, or_false,
    not_or] at hc
  obtain ⟨h0, h1, h2, h3, h4, h5⟩ := hc
  simp [escapeTable, h0, h1, h2, h3, h4, h5]

theorem flatMap_escapeTable_of_not_reserved (text : List Nat)
    (h : ∀ c ∈ text, c ∉ reservedBytes) : text.flatMap escapeTable = text := by
  induction text with
  | nil => rfl
  | cons c cs ih =>
    rw [List.flatMap_cons, escapeTable_of_not_reserved c (h c (by simp)),
      ih (fun d hd => h d (List.mem_cons_of_mem c hd))]
    rfl

/-- Writing one recognized field as a whole record. -/
theorem Write_single (fmtFloat : Nat → List Nat) (w : Writer) (f : Field) (t : List Nat)
    (s : Sink) (h : s.nonFailing) (ht : fieldText fmtFloat w f = some t) :
    (Write fmtFloat w [f] s).2 = .ok ∧
      (Write fmtFloat w [f] s).1.out = s.out ++ t ++ w.LineEnd := by
  have hrec : ∀ g ∈ [f], recognized fmtFloat w g := by
    intro g hg
    simp only [List.mem_singleton] at hg
    subst hg
    unfold recognized
    rw [ht]
    rfl
  obtain ⟨a1, _, a3⟩ := Write_recognized fmtFloat w [f] s h hrec
  refine ⟨a1, ?_⟩
  rw [a3, joinFields_cons, ht]
  simp

/-! ## Lines -/

theorem escapeTable_no_LF (b : Nat) : 0x0A ∉ escapeTable b := by
  unfold escapeTable
  split_ifs with h0 h1 h2 h3 h4 h5 <;> simp
  exact fun h => h2 h.symm

theorem flatMap_escapeTable_no_LF (content : List Nat) :
    0x0A ∉ content.flatMap escapeTable := by
  intro h
  obtain ⟨b, _, hb⟩ := List.mem_flatMap.mp h
  exact escapeTable_no_LF b hb

theorem valueText_plain_no_LF (fmtFloat : Nat → List Nat) (v : Value)
    (hv : plainValue v = true) :
    ∃ text, valueText fmtFloat v = some text ∧ v.kind ≠ .Ptr ∧ 0x0A ∉ text := by
  by_cases hb : boolOrInteger v = true
  · obtain ⟨text, ds, h1, h2, h3, _, h5⟩ := valueText_boolOrInteger fmtFloat v hb
    refine ⟨text, h1, h2, ?_⟩
    intro hmem
    exact signed_digits_not_reserved text ds h3 h5 0x0A hmem (by decide)
  · cases v <;> first
      | exact ⟨_, rfl, by simp [Value.kind], flatMap_escapeTable_no_LF _⟩
      | simp [plainValue, boolOrInteger] at hv hb

theorem fieldText_plain_no_LF (fmtFloat : Nat → List Nat) (f : Field)
    (hf : plainField f = true) :
    ∃ text, fieldText fmtFloat NewWriter f = some text ∧ 0x0A ∉ text := by
  have hq : encodeRune NewWriter.Quote = [0x22] := by decide
  cases f with
  | none => exact ⟨_, rfl, by decide⟩
  | some v =>
    simp only [plainField] at hf
    by_cases hk : v.kind = .Ptr
    · rw [if_pos hk] at hf
      by_cases hn : v.isNil = true
      · exact ⟨[0x5C, 0x4E], by simp [fieldText, hk, hn], by decide⟩
      · have hp : plainValue v.indirect = true := by
          rcases Bool.or_eq_true _ _ ▸ hf with h | h
          · exact absurd h hn
          · exact h
        obtain ⟨text, h1, _, h3⟩ := valueText_plain_no_LF fmtFloat v.indirect hp
        refine ⟨[0x22] ++ text ++ [0x22], by simp [fieldText, hk, hn, h1, hq], ?_⟩
        simp [h3]
    · rw [if_neg hk] at hf
      obtain ⟨text, h1, _, h3⟩ := valueText_plain_no_LF fmtFloat v hf
      refine ⟨[0x22] ++ text ++ [0x22], by simp [fieldText, hk, h1, hq], ?_⟩
      simp [h3]

theorem joinFields_plain_no_LF (fmtFloat : Nat → List Nat) (fields : List Field)
    (hf : ∀ f ∈ fields, plainField f = true) :
    (∀ f ∈ fields, recognized fmtFloat NewWriter f) ∧
      0x0A ∉ joinFields fmtFloat NewWriter fields := by
  have hd : encodeRune NewWriter.Delim = [0x2C] := by decide
  have hone : ∀ f ∈ fields, recognized fmtFloat NewWriter f ∧
      0x0A ∉ (fieldText fmtFloat NewWriter f).getD [] := by
    intro f hmem
    obtain ⟨text, h1, h2⟩ := fieldText_plain_no_LF fmtFloat f (hf f hmem)
    unfold recognized
    rw [h1]
    exact ⟨rfl, h2⟩
  refine ⟨fun f hmem => (hone f hmem).1, ?_⟩
  cases fields with
  | nil => simp [joinFields, List.intercalate]
  | cons f fs =>
    rw [joinFields_cons, hd]
    intro hmem
    rcases List.mem_append.mp hmem with h | h
    · exact (hone f (by simp)).2 h
    · obtain ⟨g, hg, hin⟩ := List.mem_flatMap.mp h
      rcases List.mem_append.mp hin with h' | h'
      · simp at h'
      · exact (hone g (List.mem_cons_of_mem f hg)).2 h'

/-- On a sink that never fails, with the configuration of `NewWriter`, a record of nil,
bool, integer, string and byte-slice fields (pointers to them included) is written as one
line: `Write` returns nil and the bytes it appends hold exactly one LF byte, the last. -/
theorem Write_one_line (fmtFloat : Nat → List Nat) (fields : List Field) (s : Sink)
    (h : s.nonFailing) (hf : ∀ f ∈ fields, plainField f = true) :
    ∃ body : List Nat,
      (Write fmtFloat NewWriter fields s).2 = .ok ∧
      (Write fmtFloat NewWriter fields s).1.out = s.out ++ (body ++ [0x0A]) ∧
      0x0A ∉ body ∧ (body ++ [0x0A]).count 0x0A = 1 := by
  obtain ⟨hrec, hno⟩ := joinFields_plain_no_LF fmtFloat fields hf
  obtain ⟨a1, _, a3⟩ := Write_recognized fmtFloat NewWriter fields s h hrec
  refine ⟨joinFields fmtFloat NewWriter fields, a1, ?_, hno, ?_⟩
  · rw [a3]
    simp [NewWriter]
  · rw [List.count_append, List.count_eq_zero_of_not_mem hno]
    rfl

/-! ## Successive records -/

theorem encode_recognized (fmtFloat : Nat → List Nat) (w : Writer) (fields : List Field)
    (hf : ∀ f ∈ fields, recognized fmtFloat w f) :
    encode fmtFloat w fields = joinFields fmtFloat w fields ++ w.LineEnd := by
  obtain ⟨_, _, a3⟩ := Write_recognized fmtFloat w fields (Sink.fresh none) fresh_nonFailing hf
  rw [encode, a3]
  simp [Sink.fresh]

/-! ## Reading a line back -/

theorem takeQuoted_content (content rest : List Nat) (h : 0x22 ∉ content) :
    takeQuoted (content ++ 0x22 :: rest) = some (content, rest) := by
  induction content with
  | nil => simp [takeQuoted]
  | cons b bs ih =>
    have hb : b ≠ 0x22 := fun e => h (by simp [e])
    have hbs : 0x22 ∉ bs := fun e => h (List.mem_cons_of_mem b e)
    simp [takeQuoted, hb, ih hbs]

theorem escapeTable_no_quote (b : Nat) (hb : b ≠ 0x22) : 0x22 ∉ escapeTable b := by
  unfold escapeTable
  split_ifs <;> simp
  exact fun h => hb h.symm

theorem flatMap_escapeTable_no_quote (content : List Nat) (h : 0x22 ∉ content) :
    0x22 ∉ content.flatMap escapeTable := by
  intro hmem
  obtain ⟨b, hb, hin⟩ := List.mem_flatMap.mp hmem
  exact escapeTable_no_quote b (fun e => h (e ▸ hb)) hin

/-- The text of a nil or quote-free string field under the default configuration. -/
theorem fieldText_nilOrQuoteFree (fmtFloat : Nat → List Nat) (f : Field)
    (hf : nilOrQuoteFree f = true) :
    ∃ text, fieldText fmtFloat NewWriter f = some text ∧
      ∀ rest, parseField (text ++ rest) = some (f, rest) := by
  have hq : encodeRune NewWriter.Quote = [0x22] := by decide
  cases f with
  | none => exact ⟨[0x5C, 0x4E], rfl, fun rest => by simp [parseField]⟩
  | some v =>
    cases v <;> simp only [nilOrQuoteFree, Bool.false_eq_true, decide_eq_true_eq] at hf
    case string str =>
      refine ⟨[0x22] ++ str.flatMap escapeTable ++ [0x22], ?_, ?_⟩
      · simp [fieldText, valueText, Value.kind, hq]
      · intro rest
        have hno := flatMap_escapeTable_no_quote str hf
        have ht := takeQuoted_content (str.flatMap escapeTable) rest hno
        cases hE : str.flatMap escapeTable with
        | nil =>
          rw [hE] at ht
          have hs : str = [] := by
            rw [← unescape_flatMap str, hE]
            rfl
          subst hs
          simp only [List.nil_append] at ht
          simp [parseField, ht, unescape]
        | cons c cs =>
          rw [hE] at ht
          have hu : unescape (c :: cs) = str := by
            rw [← hE, unescape_flatMap]
          simp only [List.cons_append] at ht
          simp [parseField, ht, hu]

theorem recognized_nilOrQuoteFree (fmtFloat : Nat → List Nat) (f : Field)
    (hf : nilOrQuoteFree f = true) : recognized fmtFloat NewWriter f := by
  obtain ⟨text, h1, _⟩ := fieldText_nilOrQuoteFree fmtFloat f hf
  unfold recognized
  rw [h1]
  rfl

/-- The fields after the first one, each with the comma in front, and the line feed. -/
theorem parseFields_tail (fmtFloat : Nat → List Nat) (f : Field) (fs : List Field)
    (fuel : Nat) (hfuel : fs.length < fuel)
    (hf : ∀ g ∈ f :: fs, nilOrQuoteFree g = true) :
    parseFields fuel ((fieldText fmtFloat NewWriter f).getD [] ++
      (fs.flatMap (fun g => [0x2C] ++ (fieldText fmtFloat NewWriter g).getD []) ++ [0x0A])) =
      some (f :: fs) := by
  induction fs generalizing f fuel with
  | nil =>
    obtain ⟨text, h1, h2⟩ := fieldText_nilOrQuoteFree fmtFloat f (hf f (by simp))
    cases fuel with
    | zero => omega
    | succ k =>
      rw [h1]
      simp [parseFields, h2]
  | cons g gs ih =>
    obtain ⟨text, h1, h2⟩ := fieldText_nilOrQuoteFree fmtFloat f (hf f (by simp))
    cases fuel with
    | zero => omega
    | succ k =>
      have hk : gs.length < k := by
        simp only [List.length_cons] at hfuel
        omega
      have hrec := ih g k hk (fun x hx => hf x (List.mem_cons_of_mem f hx))
      rw [h1]
      simp only [Option.getD_some, List.flatMap_cons, List.append_assoc,
        List.singleton_append, List.nil_append] at hrec ⊢
      simp [parseFields, h2, hrec]

theorem encode_length (fmtFloat : Nat → List Nat) (f : Field) (fs : List Field)
    (hf : ∀ g ∈ f :: fs, nilOrQuoteFree g = true) :
    fs.length < ((fieldText fmtFloat NewWriter f).getD [] ++
      (fs.flatMap (fun g => [0x2C] ++ (fieldText fmtFloat NewWriter g).getD []) ++
        [0x0A])).length := by
  induction fs generalizing f with
  | nil => simp
  | cons g gs ih =>
    have h := ih g (fun x hx => hf x (List.mem_cons_of_mem f hx))
    simp only [List.flatMap_cons, List.length_append, List.length_cons, List.length_nil]
      at h ⊢
    omega

theorem parseRecord_encode (fmtFloat : Nat → List Nat) (fields : List Field)
    (hf : ∀ f ∈ fields, nilOrQuoteFree f = true) :
    parseRecord (encode fmtFloat NewWriter fields) = some fields := by
  have hd : encodeRune NewWriter.Delim = [0x2C] := by decide
  rw [encode_recognized fmtFloat NewWriter fields
    (fun f hmem => recognized_nilOrQuoteFree fmtFloat f (hf f hmem))]
  cases fields with
  | nil => simp [joinFields, List.intercalate, NewWriter, parseRecord]
  | cons f fs =>
    rw [joinFields_cons, hd]
    have hL : NewWriter.LineEnd = [0x0A] := rfl
    rw [hL, List.append_assoc]
    obtain ⟨text, h1, h2⟩ := fieldText_nilOrQuoteFree fmtFloat f (hf f (by simp))
    have hne : (fieldText fmtFloat NewWriter f).getD [] ++
        (fs.flatMap (fun g => [0x2C] ++ (fieldText fmtFloat NewWriter g).getD []) ++ [0x0A]) ≠
        [0x0A] := by
      intro e
      have hp := h2 (fs.flatMap (fun g => [0x2C] ++ (fieldText fmtFloat NewWriter g).getD []) ++
        [0x0A])
      rw [h1] at e
      simp only [Option.getD_some] at e
      rw [e] at hp
      simp [parseField] at hp
    rw [parseRecord, if_neg hne]
    exact parseFields_tail fmtFloat f fs _ (encode_length fmtFloat f fs hf) hf

/-! ## Floating point fields -/

theorem writeField_float32 (fmtFloat : Nat → List Nat) (w : Writer) (bits : Nat) (s : Sink) :
    writeField fmtFloat w (some (Value.float32 bits)) s =
      writeField fmtFloat w (some (Value.float64 (float32to64 bits))) s := by
  simp [writeField, writeQuoted, dispatch, Value.kind]

/-! ## The claims, continued -/

/-- C11: for every value of a recognized type, every configuration, every position in a
record and every sink, writing a non-nil pointer to the value leaves the same sink and gives
the same result as writing the value itself. -/
theorem Write_pointer_dereferenced (fmtFloat : Nat → List Nat) (w : Writer) (v : Value)
    (pre post : List Field) (s : Sink) (hv : (valueText fmtFloat v).isSome = true) :
    Write fmtFloat w (pre ++ some (Value.ptr v) :: post) s =
      Write fmtFloat w (pre ++ some v :: post) s := by
  obtain ⟨t, ht⟩ := Option.isSome_iff_exists.mp hv
  have hk : v.kind ≠ .Ptr := valueText_not_ptr fmtFloat v t ht
  exact writeFields_congr fmtFloat w _ _ (fun s => writeField_ptr fmtFloat w v s hk) pre post 0 s

theorem Write_pointer_dereferenced_witness :
    (valueText noFloats (Value.string [0x61, 0x0A])).isSome = true ∧
      Write noFloats NewWriter ([none] ++ some (Value.ptr (Value.string [0x61, 0x0A])) ::
          [some (Value.bool true)]) (Sink.fresh (some 5)) =
        Write noFloats NewWriter ([none] ++ some (Value.string [0x61, 0x0A]) ::
          [some (Value.bool true)]) (Sink.fresh (some 5)) :=
  ⟨by decide, Write_pointer_dereferenced noFloats NewWriter (Value.string [0x61, 0x0A])
    [none] [some (Value.bool true)] (Sink.fresh (some 5)) (by decide)⟩

/-- C12: a record and a sink on which a write fails while `Write` returns nil: with no room
left in the sink the write of the null marker fails, its error is dropped, the write of the
line end is issued all the same (two calls in all) and fails too, and `Write` returns nil.
The delimiter, the quotes and the content are checked: there the error is returned at
once. -/
theorem Write_nil_drops_sink_error :
    (Sink.fresh (some 0)).WriteString [0x5C, 0x4E] =
        ({ out := [], room := some 0, failed := true, calls := 1 }, true) ∧
      Write noFloats NewWriter [none] (Sink.fresh (some 0)) =
        ({ out := [], room := some 0, failed := true, calls := 2 }, .ok) ∧
      Write noFloats NewWriter [some (Value.bool true)] (Sink.fresh (some 0)) =
        ({ out := [], room := some 0, failed := true, calls := 1 }, .error .openingQuote) ∧
      Write noFloats NewWriter [some (Value.bool true)] (Sink.fresh (some 3)) =
        ({ out := [0x22, 0x31, 0x22], room := some 0, failed := true, calls := 4 }, .ok) := by
  decide

/-- C13: with the default configuration, a record whose fields are each nil or a string
without the quote character is read back from the bytes `Write` produces for it: the line
splits at the delimiters into null markers and quote-wrapped contents, and unescaping the
contents gives the original strings. Hence two such records with the same output are equal
field by field. -/
theorem Write_nilOrQuoteFree_injective (fmtFloat : Nat → List Nat) (r1 r2 : List Field)
    (h1 : ∀ f ∈ r1, nilOrQuoteFree f = true) (h2 : ∀ f ∈ r2, nilOrQuoteFree f = true)
    (hout : (Write fmtFloat NewWriter r1 create).1.out =
      (Write fmtFloat NewWriter r2 create).1.out) :
    (Write fmtFloat NewWriter r1 create).2 = .ok ∧
      parseRecord (Write fmtFloat NewWriter r1 create).1.out = some r1 ∧ r1 = r2 := by
  have p1 := parseRecord_encode fmtFloat r1 h1
  have p2 := parseRecord_encode fmtFloat r2 h2
  have hok := (Write_recognized fmtFloat NewWriter r1 create fresh_nonFailing
    (fun f hmem => recognized_nilOrQuoteFree fmtFloat f (h1 f hmem))).1
  refine ⟨hok, p1, ?_⟩
  have e : encode fmtFloat NewWriter r1 = encode fmtFloat NewWriter r2 := hout
  rw [e, p2] at p1
  exact (Option.some.inj p1).symm

theorem Write_nilOrQuoteFree_injective_witness :
    (∀ f ∈ [none, some (Value.string [0x61, 0x2C, 0x5C, 0x0A])], nilOrQuoteFree f = true) ∧
      (∀ f ∈ [none, some (Value.string [0x61, 0x2C, 0x5C, 0x0A])], nilOrQuoteFree f = true) ∧
      (Write noFloats NewWriter [none, some (Value.string [0x61, 0x2C, 0x5C, 0x0A])]
          create).1.out =
        (Write noFloats NewWriter [none, some (Value.string [0x61, 0x2C, 0x5C, 0x0A])]
          create).1.out ∧
      ((Write noFloats NewWriter [none, some (Value.string [0x61, 0x2C, 0x5C, 0x0A])]
          create).2 = .ok ∧
        parseRecord (Write noFloats NewWriter
          [none, some (Value.string [0x61, 0x2C, 0x5C, 0x0A])] create).1.out =
          some [none, some (Value.string [0x61, 0x2C, 0x5C, 0x0A])] ∧
        ([none, some (Value.string [0x61, 0x2C, 0x5C, 0x0A])] : List Field) =
          [none, some (Value.string [0x61, 0x2C, 0x5C, 0x0A])]) :=
  ⟨by decide, by decide, rfl,
    Write_nilOrQuoteFree_injective noFloats
      [none, some (Value.string [0x61, 0x2C, 0x5C, 0x0A])]
      [none, some (Value.string [0x61, 0x2C, 0x5C, 0x0A])] (by decide) (by decide) rfl⟩

/-- C14: a successful `Write` under the configuration of `NewWriter` whose output holds no
LF byte: on a sink with room for three bytes `Write(true)` writes the quoted `1`, the
write of the line end fails, its error is dropped and `Write` returns nil, so the record
does not end its line; likewise `Write(nil)` on a sink with room for two bytes. -/
theorem Write_ok_without_line_end :
    plainField (some (Value.bool true)) = true ∧
      (Write noFloats NewWriter [some (Value.bool true)] (Sink.fresh (some 3))).2 = .ok ∧
      (Write noFloats NewWriter [some (Value.bool true)] (Sink.fresh (some 3))).1.out =
        [0x22, 0x31, 0x22] ∧
      (Write noFloats NewWriter [some (Value.bool true)] (Sink.fresh (some 3))).1.failed =
        true ∧
      0x0A ∉ (Write noFloats NewWriter [some (Value.bool true)] (Sink.fresh (some 3))).1.out ∧
      (Write noFloats NewWriter [none] (Sink.fresh (some 2))).2 = .ok ∧
      (Write noFloats NewWriter [none] (Sink.fresh (some 2))).1.out = [0x5C, 0x4E] ∧
      0x0A ∉ (Write noFloats NewWriter [none] (Sink.fresh (some 2))).1.out := by
  decide

/-- C15: for every boolean field and every configuration, `Write` on a sink that never
fails returns nil and emits, between quote characters, the single character `1` for true
and `0` for false; `Write(true, false)` on a default writer yields `"1","0"` and a line
feed, as `TestWriterBool` requires. -/
theorem Write_bool_digit (fmtFloat : Nat → List Nat) (w : Writer) (b : Bool) (s : Sink)
    (h : s.nonFailing) :
    (Write fmtFloat w [some (Value.bool b)] s).2 = .ok ∧
      (Write fmtFloat w [some (Value.bool b)] s).1.out =
        s.out ++ encodeRune w.Quote ++ [if b then 0x31 else 0x30] ++ encodeRune w.Quote ++
          w.LineEnd ∧
      (Write fmtFloat NewWriter TestWriterBool_fields create).2 = .ok ∧
      (Write fmtFloat NewWriter TestWriterBool_fields create).1.out =
        TestWriterBool_expected := by
  have ht : fieldText fmtFloat w (some (Value.bool b)) =
      some (encodeRune w.Quote ++ (if b then [0x31] else [0x30]) ++ encodeRune w.Quote) := by
    simp [fieldText, valueText, Value.kind]
  have hrec : ∀ f ∈ [some (Value.bool b)], recognized fmtFloat w f := by
    intro f hf
    simp only [List.mem_singleton] at hf
    subst hf
    unfold recognized
    rw [ht]
    rfl
  obtain ⟨a1, _, a3⟩ := Write_recognized fmtFloat w [some (Value.bool b)] s h hrec
  refine ⟨a1, ?_, rfl, rfl⟩
  rw [a3, joinFields_cons, ht]
  cases b <;> simp

theorem Write_bool_digit_witness :
    (Sink.fresh none).nonFailing ∧
      ((Write noFloats NewWriter [some (Value.bool true)] (Sink.fresh none)).2 = .ok ∧
      (Write noFloats NewWriter [some (Value.bool true)] (Sink.fresh none)).1.out =
        (Sink.fresh none).out ++ encodeRune NewWriter.Quote ++ [if true then 0x31 else 0x30] ++
          encodeRune NewWriter.Quote ++ NewWriter.LineEnd ∧
      (Write noFloats NewWriter TestWriterBool_fields create).2 = .ok ∧
      (Write noFloats NewWriter TestWriterBool_fields create).1.out =
        TestWriterBool_expected) :=
  ⟨by decide, Write_bool_digit noFloats NewWriter true (Sink.fresh none) (by decide)⟩

/-- C16: a `float32` field is converted to `float64` and formatted at 64 bits: for every
formatter it is written exactly as the `float64` field holding the converted value. The
`float32` nearest to 0.1 (bits 0x3DCCCCCD) converts to the `float64` with bits
0x3FB99999A0000000, which is not the `float64` nearest to 0.1 (bits 0x3FB999999999999A); so
when the formatter prints the latter as `0.1` and gives different `float64` values
different texts, as a formatter whose text parses back to the value must, the `float32`
holding 0.1 is not written as `0.1`. -/
theorem Write_float32_formatted_at_64 (fmtFloat : Nat → List Nat)
    (hshort : fmtFloat 0x3FB999999999999A = [0x30, 0x2E, 0x31])
    (hdistinct : fmtFloat 0x3FB99999A0000000 ≠ fmtFloat 0x3FB999999999999A) :
    (∀ (w : Writer) (bits : Nat) (s : Sink),
        Write fmtFloat w [some (Value.float32 bits)] s =
          Write fmtFloat w [some (Value.float64 (float32to64 bits))] s) ∧
      float32to64 0x3DCCCCCD = 0x3FB99999A0000000 ∧
      (Write fmtFloat NewWriter [some (Value.float32 0x3DCCCCCD)] create).2 = .ok ∧
      (Write fmtFloat NewWriter [some (Value.float32 0x3DCCCCCD)] create).1.out =
        [0x22] ++ fmtFloat 0x3FB99999A0000000 ++ [0x22, 0x0A] ∧
      (Write fmtFloat NewWriter [some (Value.float32 0x3DCCCCCD)] create).1.out ≠
        [0x22, 0x30, 0x2E, 0x31, 0x22, 0x0A] := by
  have hw : float32to64 0x3DCCCCCD = 0x3FB99999A0000000 := by decide
  have hq : encodeRune NewWriter.Quote = [0x22] := by decide
  have ht : fieldText fmtFloat NewWriter (some (Value.float32 0x3DCCCCCD)) =
      some ([0x22] ++ fmtFloat 0x3FB99999A0000000 ++ [0x22]) := by
    simp only [fieldText, Value.kind, reduceCtorEq, if_false, valueText, hw, Option.map_some',
      hq]
  obtain ⟨a1, a2⟩ := Write_single fmtFloat NewWriter _ _ create fresh_nonFailing ht
  have hout : (Write fmtFloat NewWriter [some (Value.float32 0x3DCCCCCD)] create).1.out =
      [0x22] ++ fmtFloat 0x3FB99999A0000000 ++ [0x22, 0x0A] := by
    rw [a2]
    simp [create, Sink.fresh, NewWriter]
  refine ⟨?_, hw, a1, hout, ?_⟩
  · intro w bits s
    exact writeFields_congr fmtFloat w _ _ (writeField_float32 fmtFloat w bits) [] [] 0 s
  · rw [hout]
    intro e
    apply hdistinct
    rw [hshort]
    have e2 : fmtFloat 0x3FB99999A0000000 ++ [0x22, 0x0A] = [0x30, 0x2E, 0x31] ++ [0x22, 0x0A] := by
      simpa using e
    exact List.append_cancel_right e2

theorem Write_float32_formatted_at_64_witness :
    formatFloatTable 0x3FB999999999999A = [0x30, 0x2E, 0x31] ∧
      formatFloatTable 0x3FB99999A0000000 ≠ formatFloatTable 0x3FB999999999999A ∧
      ((∀ (w : Writer) (bits : Nat) (s : Sink),
        Write formatFloatTable w [some (Value.float32 bits)] s =
          Write formatFloatTable w [some (Value.float64 (float32to64 bits))] s) ∧
      float32to64 0x3DCCCCCD = 0x3FB99999A0000000 ∧
      (Write formatFloatTable NewWriter [some (Value.float32 0x3DCCCCCD)] create).2 = .ok ∧
      (Write formatFloatTable NewWriter [some (Value.float32 0x3DCCCCCD)] create).1.out =
        [0x22] ++ formatFloatTable 0x3FB99999A0000000 ++ [0x22, 0x0A] ∧
      (Write formatFloatTable NewWriter [some (Value.float32 0x3DCCCCCD)] create).1.out ≠
        [0x22, 0x30, 0x2E, 0x31, 0x22, 0x0A]) :=
  ⟨by decide, by decide, Write_float32_formatted_at_64 formatFloatTable (by decide) (by decide)⟩

/-- C17: two distinct records of string fields with the same output under the default
configuration: the one-field record with the string `a","b` and the two-field record
`a`, `b` both yield `"a","b"` and a line feed, because the quote character is copied
unescaped. -/
theorem Write_quote_collision :
    ([some (Value.string [0x61, 0x22, 0x2C, 0x22, 0x62])] : List Field) ≠
        [some (Value.string [0x61]), some (Value.string [0x62])] ∧
      (Write noFloats NewWriter [some (Value.string [0x61, 0x22, 0x2C, 0x22, 0x62])] create).2 =
        .ok ∧
      (Write noFloats NewWriter [some (Value.string [0x61]), some (Value.string [0x62])]
        create).2 = .ok ∧
      (Write noFloats NewWriter [some (Value.string [0x61, 0x22, 0x2C, 0x22, 0x62])]
          create).1.out = [0x22, 0x61, 0x22, 0x2C, 0x22, 0x62, 0x22, 0x0A] ∧
      (Write noFloats NewWriter [some (Value.string [0x61]), some (Value.string [0x62])]
          create).1.out = [0x22, 0x61, 0x22, 0x2C, 0x22, 0x62, 0x22, 0x0A] := by
  decide

/-- C18: for every boolean and every signed or unsigned integer value of any width, the text
`Write` emits between the quotes consists of decimal digits after at most one leading `-`;
it holds none of the bytes the Escape Table replaces (0x00, backslash, LF, CR, TAB, 0x1A),
and escaping would leave it unchanged. -/
theorem Write_numeric_text_unreserved (fmtFloat : Nat → List Nat) (w : Writer) (v : Value)
    (s : Sink) (h : s.nonFailing) (hv : boolOrInteger v = true) :
    ∃ text ds : List Nat,
      (Write fmtFloat w [some v] s).2 = .ok ∧
      (Write fmtFloat w [some v] s).1.out =
        s.out ++ encodeRune w.Quote ++ text ++ encodeRune w.Quote ++ w.LineEnd ∧
      (text = ds ∨ text = 45 :: ds) ∧ ds ≠ [] ∧ (∀ c ∈ ds, isDigit c) ∧
      (∀ c ∈ text, c ∉ reservedBytes) ∧ escape text = text := by
  obtain ⟨text, ds, h1, h2, h3, h4, h5⟩ := valueText_boolOrInteger fmtFloat v hv
  have ht : fieldText fmtFloat w (some v) =
      some (encodeRune w.Quote ++ text ++ encodeRune w.Quote) := by
    simp [fieldText, h2, h1]
  obtain ⟨a1, a2⟩ := Write_single fmtFloat w (some v) _ s h ht
  have hres := signed_digits_not_reserved text ds h3 h5
  refine ⟨text, ds, a1, ?_, h3, h4, h5, hres, ?_⟩
  · rw [a2]
    simp
  · rw [escape_eq, flatMap_escapeTable_of_not_reserved text hres]

theorem Write_numeric_text_unreserved_witness :
    (Sink.fresh none).nonFailing ∧ boolOrInteger (Value.int8 (-128)) = true ∧
      ∃ text ds : List Nat,
        (Write noFloats NewWriter [some (Value.int8 (-128))] (Sink.fresh none)).2 = .ok ∧
        (Write noFloats NewWriter [some (Value.int8 (-128))] (Sink.fresh none)).1.out =
          (Sink.fresh none).out ++ encodeRune NewWriter.Quote ++ text ++
            encodeRune NewWriter.Quote ++ NewWriter.LineEnd ∧
        (text = ds ∨ text = 45 :: ds) ∧ ds ≠ [] ∧ (∀ c ∈ ds, isDigit c) ∧
        (∀ c ∈ text, c ∉ reservedBytes) ∧ escape text = text :=
  ⟨by decide, by decide,
    Write_numeric_text_unreserved noFloats NewWriter (Value.int8 (-128)) (Sink.fresh none)
      (by decide) (by decide)⟩

/-- C19: `Write` only appends and keeps no state between calls: for every sink that never
fails, holding any content, and every two records of recognized fields, after `Write` of
the first record, `Write` of the second and `Flush`, all succeeding, the sink holds its
former content followed by the bytes of the first record and the bytes of the second, each
as written alone into an empty sink under the same configuration; `Delim`, `Quote` and
`LineEnd` are unchanged. -/
theorem Write_appends_statelessly (fmtFloat : Nat → List Nat) (w : Writer)
    (r1 r2 : List Field) (s : Sink) (h : s.nonFailing)
    (h1 : ∀ f ∈ r1, recognized fmtFloat w f) (h2 : ∀ f ∈ r2, recognized fmtFloat w f) :
    (WriterState.Write fmtFloat { cfg := w, sink := s } r1).2 = .ok ∧
      (WriterState.Write fmtFloat (WriterState.Write fmtFloat { cfg := w, sink := s } r1).1
        r2).2 = .ok ∧
      (WriterState.Write fmtFloat (WriterState.Write fmtFloat { cfg := w, sink := s } r1).1
        r2).1.Flush.2 = false ∧
      (WriterState.Write fmtFloat (WriterState.Write fmtFloat { cfg := w, sink := s } r1).1
        r2).1.Flush.1.sink.out = s.out ++ encode fmtFloat w r1 ++ encode fmtFloat w r2 ∧
      (WriterState.Write fmtFloat { cfg := w, sink := s } r1).1.cfg = w ∧
      (WriterState.Write fmtFloat (WriterState.Write fmtFloat { cfg := w, sink := s } r1).1
        r2).1.Flush.1.cfg = w := by
  obtain ⟨a1, a2, a3⟩ := Write_recognized fmtFloat w r1 s h h1
  obtain ⟨b1, b2, b3⟩ := Write_recognized fmtFloat w r2 (Write fmtFloat w r1 s).1 a2 h2
  refine ⟨a1, b1, ?_, ?_, rfl, rfl⟩
  · exact b2.2
  · simp only [WriterState.Write, WriterState.Flush, Sink.Flush]
    rw [b3, a3, encode_recognized fmtFloat w r1 h1, encode_recognized fmtFloat w r2 h2]
    simp [List.append_assoc]

theorem Write_appends_statelessly_witness :
    ({ out := [0x78, 0x0A], room := none, failed := false, calls := 3 } : Sink).nonFailing ∧
      (∀ f ∈ [none, some (Value.string [0x61])], recognized noFloats NewWriter f) ∧
      (∀ f ∈ [some (Value.uint8 7)], recognized noFloats NewWriter f) ∧
      ((WriterState.Write noFloats { cfg := NewWriter, sink :=
          { out := [0x78, 0x0A], room := none, failed := false, calls := 3 } }
          [none, some (Value.string [0x61])]).2 = .ok ∧
      (WriterState.Write noFloats (WriterState.Write noFloats { cfg := NewWriter, sink :=
          { out := [0x78, 0x0A], room := none, failed := false, calls := 3 } }
          [none, some (Value.string [0x61])]).1 [some (Value.uint8 7)]).2 = .ok ∧
      (WriterState.Write noFloats (WriterState.Write noFloats { cfg := NewWriter, sink :=
          { out := [0x78, 0x0A], room := none, failed := false, calls := 3 } }
          [none, some (Value.string [0x61])]).1 [some (Value.uint8 7)]).1.Flush.2 = false ∧
      (WriterState.Write noFloats (WriterState.Write noFloats { cfg := NewWriter, sink :=
          { out := [0x78, 0x0A], room := none, failed := false, calls := 3 } }
          [none, some (Value.string [0x61])]).1 [some (Value.uint8 7)]).1.Flush.1.sink.out =
        ({ out := [0x78, 0x0A], room := none, failed := false, calls := 3 } : Sink).out ++
          encode noFloats NewWriter [none, some (Value.string [0x61])] ++
          encode noFloats NewWriter [some (Value.uint8 7)] ∧
      (WriterState.Write noFloats { cfg := NewWriter, sink :=
          { out := [0x78, 0x0A], room := none, failed := false, calls := 3 } }
          [none, some (Value.string [0x61])]).1.cfg = NewWriter ∧
      (WriterState.Write noFloats (WriterState.Write noFloats { cfg := NewWriter, sink :=
          { out := [0x78, 0x0A], room := none, failed := false, calls := 3 } }
          [none, some (Value.string [0x61])]).1 [some (Value.uint8 7)]).1.Flush.1.cfg =
        NewWriter) :=
  ⟨by decide, by decide, by decide,
    Write_appends_statelessly noFloats NewWriter [none, some (Value.string [0x61])]
      [some (Value.uint8 7)] { out := [0x78, 0x0A], room := none, failed := false, calls := 3 }
      (by decide) (by decide) (by decide)⟩

/-- C20: a field of a kind the dispatch recognizes on which `Write` panics: a value of a
defined type with underlying type `string` has kind `String`, the branch for strings is
selected and its assertion `field.(string)` fails; the same happens for a defined type of
kind `Int` and for a slice type other than `[]byte` with elements of kind `Uint8`. A value
of the type `string` itself is written. -/
theorem Write_named_type_panics :
    (Value.named (Value.string [0x61])).kind = .String ∧
      (Write noFloats NewWriter [some (Value.named (Value.string [0x61]))] create).2 = .panic ∧
      (Write noFloats NewWriter [some (Value.named (Value.int 1))] create).2 = .panic ∧
      (Write noFloats NewWriter [some (Value.slice .Uint8)] create).2 = .panic ∧
      (Write noFloats NewWriter [some (Value.named (Value.bytes [0x61]))] create).2 = .panic ∧
      (Write noFloats NewWriter [some (Value.string [0x61])] create).2 = .ok := by
  decide

end DataWriter
